import Mathlib

/-!
Verification of the commercecraft-utils translation pipeline.

This file gives a shallow embedding of the translation service
(`translation_service.py`) and the translation engine
(`translation_engine.py`) of the repository, and proves properties
about them.

Modelling conventions:
* Pandas cell values are modelled by `Val`: `na` is NaN/missing, `vstr`
  is a Python string, `vint` models a numeric value (numerics are
  modelled as integers; the numeric parse used by dtype casts is an
  integer parse).
* Remote API calls are modelled by oracles: a function from the attempt
  index to the outcome of that request.  An outcome is either a raw
  response string or a raised exception.
* The `TranslationProcessor` class (text protector) is imported by the
  engine but its module is not part of the source tree; the whole
  per-value protect/translate/restore pipeline inside
  `translate_values` is therefore abstracted as an oracle
  `tr : Val → Except String String` (`.error` models any exception
  raised while translating that single value).
* `asyncio.sleep` delays are recorded in the returned `delays` list
  instead of actually sleeping; file writes of `process_file` are
  returned as a list of dataframe snapshots instead of touching a
  filesystem.
-/

namespace CommerceCraft

/-- Model of a pandas cell value: missing (NaN), a string, or a numeric. -/
inductive Val where
  | na
  | vstr (s : String)
  | vint (n : Int)
deriving DecidableEq, Repr

/-- `pd.notna`. -/
def Val.notna : Val → Bool
  | .na => false
  | _ => true

/-- `pd.isna`. -/
def Val.isna (v : Val) : Bool := !v.notna

/-- Python `str(v)` on a cell value. -/
def pyStr : Val → String
  | .na => "nan"
  | .vstr s => s
  | .vint n => toString n

/-- Python truthiness of a cell value (`if df.at[idx, source_col]`):
NaN is truthy (it is a non-zero float), a string is truthy iff
non-empty, a number is truthy iff non-zero. -/
def pyTruthy : Val → Bool
  | .na => true
  | .vstr s => !(s == "")
  | .vint n => !(n == 0)

/-- Whitespace test used by Python `str.strip`. -/
def isWs (c : Char) : Bool := c.isWhitespace

/-- Strip leading and trailing whitespace from a character list. -/
def stripL (l : List Char) : List Char :=
  ((l.dropWhile isWs).reverse.dropWhile isWs).reverse

/-- Python `str.strip()`. -/
def pystrip (s : String) : String := ⟨stripL s.data⟩

/-- Split a character list on a non-empty separator; `fuel` bounds the
recursion (any `fuel ≥ l.length` gives Python `str.split` semantics). -/
def splitFuel (sep : List Char) : Nat → List Char → List Char → List (List Char)
  | 0, l, cur => [cur.reverse ++ l]
  | f + 1, l, cur =>
    match l with
    | [] => [cur.reverse]
    | c :: cs =>
      if sep.isPrefixOf (c :: cs) then
        cur.reverse :: splitFuel sep f (List.drop (sep.length - 1) cs) []
      else splitFuel sep f cs (c :: cur)

/-- Python `s.split(sep)` for a non-empty separator (Python raises on an
empty separator; that case is modelled as no split). -/
def pySplit (sep s : String) : List String :=
  if sep = "" then [s]
  else (splitFuel sep.data s.data.length s.data []).map String.mk

/-- Parse an unsigned decimal digit string. -/
def digitsToNatGo (acc : Nat) : List Char → Option Nat
  | [] => some acc
  | c :: cs =>
    if c.isDigit then digitsToNatGo (acc * 10 + (c.toNat - 48)) cs
    else none

/-- Parse a non-empty unsigned decimal digit string. -/
def digitsToNat : List Char → Option Nat
  | [] => none
  | l => digitsToNatGo 0 l

/-- The numeric parse used to model `dtype.type(string)`: an optionally
signed decimal integer (the model's numerics are integers). -/
def pyParseInt (s : String) : Option Int :=
  match s.data with
  | '-' :: rest => (digitsToNat rest).map (fun n => -(n : Int))
  | '+' :: rest => (digitsToNat rest).map (fun n => (n : Int))
  | l => (digitsToNat l).map (fun n => (n : Int))

/-! ## Translation service (`translation_service.py`) -/

/-- Outcome of one `chat.completions.create` request: a raw response
content, or a raised exception. -/
inductive ApiOutcome where
  | ok (content : String)
  | exn (msg : String)

/-- `TranslationService._process_response`: strip the response and split
it into stripped lines. -/
def processResponse (r : String) : List String :=
  (pySplit "\n" (pystrip r)).map pystrip

/-- Result of `translate_batch`: a returned list (`success`), a raised
exception (`failure`), or the implicit `None` returned by Python when
the retry loop body never runs (`max_retries = 0`). -/
inductive BatchResult where
  | success (ts : List String)
  | failure (msg : String)
  | pyNone
deriving DecidableEq, Repr

/-- One run of `translate_batch`: its result, the number of API requests
made, and the list of back-off delays slept between attempts (in time
units, in chronological order). -/
structure BatchRun where
  result : BatchResult
  calls : Nat
  delays : List Nat
deriving DecidableEq, Repr

/-- The retry loop of `translate_batch`.  `a` is the current attempt
index (Python `attempt`), `fuel` the number of remaining iterations
(`max_retries - attempt`); `len` the number of input texts.  A retry is
allowed while `attempt < max_retries - 1`, i.e. while `fuel ≥ 2`. -/
def batchLoop (api : Nat → ApiOutcome) (len : Nat) : Nat → Nat → BatchRun
  | _, 0 => ⟨.pyNone, 0, []⟩
  | a, 1 =>
    match api a with
    | .ok c =>
      if (processResponse c).length ≠ len then
        ⟨.failure "Translation failed: line count mismatch", 1, []⟩
      else ⟨.success (processResponse c), 1, []⟩
    | .exn _ => ⟨.failure "Translation failed: request error", 1, []⟩
  | a, f + 2 =>
    match api a with
    | .ok c =>
      if (processResponse c).length ≠ len then
        { result := (batchLoop api len (a + 1) (f + 1)).result,
          calls := (batchLoop api len (a + 1) (f + 1)).calls + 1,
          delays := 2 ^ a :: (batchLoop api len (a + 1) (f + 1)).delays }
      else ⟨.success (processResponse c), 1, []⟩
    | .exn _ =>
      { result := (batchLoop api len (a + 1) (f + 1)).result,
        calls := (batchLoop api len (a + 1) (f + 1)).calls + 1,
        delays := 2 ^ a :: (batchLoop api len (a + 1) (f + 1)).delays }

/-- `TranslationService.translate_batch`: empty input returns `[]`
immediately; otherwise run the retry loop with `max_retries` fuel
starting at attempt 0. -/
def translateBatch (api : Nat → ApiOutcome) (texts : List String)
    (maxRetries : Nat) : BatchRun :=
  if texts.isEmpty then ⟨.success [], 0, []⟩
  else batchLoop api texts.length 0 maxRetries

/-- The successive batches `texts[i : i + batch_size]` of
`translate_texts`.  An empty or zero batch size would make the Python
`range` raise, so it yields no batches here; claims assume
`batchSize ≥ 1`. -/
def pyChunksFuel (bs : Nat) : Nat → List String → List (List String)
  | 0, _ => []
  | _, [] => []
  | f + 1, x :: xs =>
    if bs = 0 then []
    else (x :: xs).take bs :: pyChunksFuel bs f ((x :: xs).drop bs)

/-- The batches of `translate_texts` (each step consumes at least one
element, so `l.length` steps always suffice). -/
def pyChunks (bs : Nat) (l : List String) : List (List String) :=
  pyChunksFuel bs l.length l

/-- The batch loop of `translate_texts`: each batch is translated with
the default `max_retries = 3`; on success the translations are
accumulated, on any exception (including the `None` that an exhausted
zero-retry loop would return) the accumulated prefix is returned.
`api k a` is the outcome of attempt `a` on batch `k`. -/
def textsLoop (api : Nat → Nat → ApiOutcome) : List (List String) → Nat → List String
  | [], _ => []
  | b :: rest, k =>
    match (translateBatch (api k) b 3).result with
    | .success ts => ts ++ textsLoop api rest (k + 1)
    | _ => []

/-- `TranslationService.translate_texts`. -/
def translateTexts (api : Nat → Nat → ApiOutcome) (batchSize : Nat)
    (texts : List String) : List String :=
  textsLoop api (pyChunks batchSize texts) 0

/-- The translations of batch `k` when it succeeds, `[]` otherwise. -/
def batchSuccess (api : Nat → Nat → ApiOutcome) (b : List String) (k : Nat) :
    List String :=
  match (translateBatch (api k) b 3).result with
  | .success ts => ts
  | _ => []

/-- The number of leading batches that succeed before the first batch
failure (all batches when none fails). -/
def successCount (api : Nat → Nat → ApiOutcome) : List (List String) → Nat → Nat
  | [], _ => 0
  | b :: rest, k =>
    match (translateBatch (api k) b 3).result with
    | .success _ => successCount api rest (k + 1) + 1
    | _ => 0

/-! ## Dataframe model -/

/-- Pandas column dtype, as far as the engine distinguishes them:
`numeric` is any dtype for which `pd.api.types.is_numeric_dtype` holds
(modelled float-like: it can hold NaN), `object` is everything else. -/
inductive Dtype where
  | object
  | numeric
deriving DecidableEq, Repr

/-- One named, typed column of a dataframe. -/
structure Column where
  name : String
  dtype : Dtype
  vals : List Val
deriving DecidableEq, Repr

/-- A dataframe: a row count and a list of columns. -/
structure DataFrame where
  nrows : Nat
  columns : List Column
deriving DecidableEq, Repr

/-- Well-formedness: columns are rectangular and column names are
unique (pandas guarantees both for a freshly loaded CSV). -/
def DataFrame.WF (df : DataFrame) : Prop :=
  (∀ col ∈ df.columns, col.vals.length = df.nrows) ∧
  (df.columns.map Column.name).Nodup

instance (df : DataFrame) : Decidable df.WF := by
  unfold DataFrame.WF; infer_instance

def DataFrame.colNames (df : DataFrame) : List String :=
  df.columns.map Column.name

def DataFrame.getCol (df : DataFrame) (c : String) : Option Column :=
  df.columns.find? (fun col => col.name == c)

/-- `df.at[r, c]` read access; out-of-range reads give `na`. -/
def DataFrame.cell (df : DataFrame) (c : String) (r : Nat) : Val :=
  match df.getCol c with
  | some col => col.vals.getD r .na
  | none => .na

/-- `df[c].dtype`. -/
def DataFrame.dtypeOf (df : DataFrame) (c : String) : Dtype :=
  match df.getCol c with
  | some col => col.dtype
  | none => .object

/-- `df.at[r, c] = v` write access (rows written by the engine are
always in range). -/
def DataFrame.setCell (df : DataFrame) (c : String) (r : Nat) (v : Val) :
    DataFrame :=
  { df with
    columns := df.columns.map fun col =>
      if col.name = c then { col with vals := col.vals.set r v } else col }

/-- Replace a whole column (dtype and values), as
`df[c] = df[c].astype(d)` does. -/
def DataFrame.setColumn (df : DataFrame) (c : String) (d : Dtype)
    (vs : List Val) : DataFrame :=
  { df with
    columns := df.columns.map fun col =>
      if col.name = c then { col with dtype := d, vals := vs } else col }

/-- Cast one cell value to a dtype, as `Series.astype` does per element:
casting to `object` keeps the value; casting to a numeric dtype keeps
NaN and numbers and parses strings (raising, i.e. `.error`, when the
string is not numeric). -/
def castValAs (d : Dtype) (v : Val) : Except String Val :=
  match d with
  | .object => .ok v
  | .numeric =>
    match v with
    | .na => .ok .na
    | .vint n => .ok (.vint n)
    | .vstr s =>
      match pyParseInt (pystrip s) with
      | some n => .ok (.vint n)
      | none => .error ("could not convert string to numeric: " ++ s)

/-- Effectful map over a list in the `Except` monad (structural
recursion form of `mapM`). -/
def exceptMapList (f : α → Except ε β) : List α → Except ε (List β)
  | [] => .ok []
  | x :: xs =>
    match f x with
    | .error e => .error e
    | .ok y =>
      match exceptMapList f xs with
      | .error e => .error e
      | .ok ys => .ok (y :: ys)

/-- `df[c] = df[c].astype(d)`: cast every cell of the column, raising if
any single cast raises. -/
def astypeColumn (df : DataFrame) (c : String) (d : Dtype) :
    Except String DataFrame :=
  match df.getCol c with
  | none => .ok df
  | some col =>
    match exceptMapList (castValAs d) col.vals with
    | .error e => .error e
    | .ok vs => .ok (df.setColumn c d vs)

/-! ## Column-group discovery

The engine imports `get_base_columns` and `get_language_columns` from
`.utils`, but the source tree's `utils` package does not contain them;
they are modelled from the spec here. -/

/-- Split a column name into base field and language tag at the first
occurrence of the field-language separator; `none` when the separator
does not occur. -/
def baseLangOf (sep c : String) : Option (String × String) :=
  match pySplit sep c with
  | [] => none
  | [_] => none
  | b :: rest => some (b, String.intercalate sep rest)

/-- Modelled from the spec: `get_base_columns(columns, sep)` — the base
field names of all columns that follow the
`<base><field-language-separator><language-tag>` convention, without
duplicates (spec §3 "Tabular Dataset", §4.3 step 1). -/
def getBaseColumns (cols : List String) (sep : String) : List String :=
  (cols.filterMap fun c => (baseLangOf sep c).map Prod.fst).dedup

/-- Modelled from the spec: `get_language_columns(df, base, sep)` — the
language-tag → column-name mapping of one column group (spec §3 "Column
Group"), in column order. -/
def getLanguageColumns (df : DataFrame) (base sep : String) :
    List (String × String) :=
  df.colNames.filterMap fun c =>
    match baseLangOf sep c with
    | some (b, l) => if b = base then some (l, c) else none
    | none => none

/-- `lang in lang_columns` / `lang_columns[lang]` lookup. -/
def lookupLang (lcs : List (String × String)) (l : String) : Option String :=
  (lcs.find? fun p => p.1 == l).map Prod.snd

/-- The column of `base` carrying the source language, if any. -/
def sourceColFor (df : DataFrame) (sep source base : String) : Option String :=
  lookupLang (getLanguageColumns df base sep) source

/-! ## Translation engine (`translation_engine.py`) -/

/-- The environment-sourced configuration of `TranslationEngine`. -/
structure EngineCfg where
  sourceLang : String
  setSeparator : String
  fieldLangSeparator : String

/-- The dtype-alignment cast (if any) that the astype loop applies to a
column, as a function of the input dataframe: the target columns of the
groups whose source column exists are cast to the source column's
dtype. -/
def astypeAction (cfg : EngineCfg) (df : DataFrame) (bases : List String)
    (c : String) : Option Dtype :=
  match baseLangOf cfg.fieldLangSeparator c with
  | none => none
  | some (b, l) =>
    if l = cfg.sourceLang then none
    else if b ∈ bases then
      match sourceColFor df cfg.fieldLangSeparator cfg.sourceLang b with
      | none => none
      | some scol => if c ∈ df.colNames then some (df.dtypeOf scol) else none
    else none


/-- The validity filter of `translate_values`:
`pd.notna(v) and str(v).strip()`. -/
def validVal (v : Val) : Bool := v.notna && !(pystrip (pyStr v) == "")

/-- Python `dict` built by `dict(zip(keys, vals))`, queried with `.get`:
the value of the last pair whose key equals the query, if any. -/
def dictGet (pairs : List (Val × Val)) (k : Val) : Option Val :=
  (pairs.reverse.find? fun p => p.1 == k).map Prod.snd

/-- `TranslationEngine.translate_values`.  The per-value body of the
try-block (protect → translate → JSON handling → restore) is abstracted
by the oracle `tr`; `.error` models any exception raised inside it, in
which case the original value is appended as its own translation. -/
def translateValues (tr : Val → Except String String) (values : List Val) :
    List Val :=
  let valid := values.filter validVal
  if valid.isEmpty then values
  else
    let translations := valid.map fun v =>
      match tr v with
      | .ok t => Val.vstr t
      | .error _ => v
    let tmap := valid.zip translations
    values.map fun v =>
      if v.notna then (dictGet tmap (Val.vstr (pystrip (pyStr v)))).getD v
      else v

/-- The translation computed for one submitted value: the oracle's
answer on success, the value itself when the per-value pipeline raised. -/
def trFun (tr : Val → Except String String) (v : Val) : Val :=
  match tr v with
  | .ok t => Val.vstr t
  | .error _ => v

/-- Rows eligible for translation of one target column:
`df[pd.isna(df[target_col]) & pd.notna(df[source_col])].index`. -/
def eligibleRows (df : DataFrame) (tcol scol : String) : List Nat :=
  (List.range df.nrows).filter fun r =>
    (df.cell tcol r).isna && (df.cell scol r).notna

/-- The `all_elements` list of the set-column branch: for each eligible
row, if the source cell is truthy, its string split on the set
separator with each element stripped; otherwise nothing. -/
def setAllElements (df : DataFrame) (scol : String) (rows : List Nat)
    (sep : String) : List String :=
  (rows.map fun r =>
    if pyTruthy (df.cell scol r) then
      (pySplit sep (pyStr (df.cell scol r))).map pystrip
    else []).flatten

/-- Python `list.index`, returning `none` where Python raises
`ValueError`. -/
def pyIndex (l : List String) (x : String) : Option Nat :=
  match l with
  | [] => none
  | y :: ys => if y = x then some 0 else (pyIndex ys x).map (· + 1)

/-- The value written for one row of a set column:
`separator.join(translations[all_elements.index(str(e).strip())] for e
in str(cell).split(separator))`; `.error` models the `ValueError` that
`list.index` raises when an element is absent. -/
def setRowWrittenE (tr : Val → Except String String) (sep : String)
    (elems : List String) (cellVal : Val) : Except String String :=
  match exceptMapList (fun e =>
      match pyIndex elems (pystrip e) with
      | some i => Except.ok (pyStr
          ((translateValues tr (elems.map Val.vstr)).getD i (Val.vstr "")))
      | none => Except.error "ValueError: element not in list")
    (pySplit sep (pyStr cellVal)) with
  | .error e => .error e
  | .ok parts => .ok (String.intercalate sep parts)

/-- `translations[0]` of `translate_values([str(value)], ...)`. -/
def singleTranslated (tr : Val → Except String String) (v : Val) : Val :=
  (translateValues tr [Val.vstr (pyStr v)]).getD 0 (Val.vstr (pyStr v))

/-- The value written for one row of a regular column: the single
translation, cast back to the source dtype when that dtype is numeric
(keeping the translated string, with a warning, when the cast fails). -/
def regWrittenVal (tr : Val → Except String String) (srcDtype : Dtype)
    (v : Val) : Val :=
  let t := singleTranslated tr v
  if srcDtype = Dtype.numeric then
    match t with
    | Val.vstr s =>
      match pyParseInt (pystrip s) with
      | some n => Val.vint n
      | none => Val.vstr s
    | u => u
  else t

/-- Whether the numeric cast of the regular branch fails and logs a
warning for this source value. -/
def regCastWarns (tr : Val → Except String String) (srcDtype : Dtype)
    (v : Val) : Bool :=
  srcDtype = Dtype.numeric &&
    match singleTranslated tr v with
    | Val.vstr s => (pyParseInt (pystrip s)).isNone
    | _ => false

/-- Mutable state threaded through `translate_dataframe`: the dataframe
being written (`df_translated`), the translation counter, the number of
cast warnings logged, and the snapshots passed to the save callback (in
order). -/
structure TState where
  df : DataFrame
  transCount : Nat
  castWarnings : Nat
  snaps : List DataFrame
deriving DecidableEq, Repr

/-- `await save_callback(df_translated)` guarded by
`if save_callback and translation_count > 0`. -/
def pushSnap (cb : Bool) (st : TState) : TState :=
  if cb && decide (0 < st.transCount) then
    { st with snaps := st.snaps ++ [st.df] }
  else st

/-- The per-row loop of the set-column branch: each eligible row whose
source cell is non-NA gets the rejoined element translations written to
its target cell, followed by the save callback. -/
def setRowsLoop (tr : Val → Except String String) (cb : Bool) (sep : String)
    (df : DataFrame) (scol tcol : String) (elems : List String) :
    List Nat → TState → Except String TState
  | [], st => .ok st
  | r :: rest, st =>
    if (df.cell scol r).notna then
      match setRowWrittenE tr sep elems (df.cell scol r) with
      | .error e => .error e
      | .ok w =>
        let st := { st with df := st.df.setCell tcol r (Val.vstr w) }
        setRowsLoop tr cb sep df scol tcol elems rest (pushSnap cb st)
    else setRowsLoop tr cb sep df scol tcol elems rest st

/-- The set-column branch for one (base, target-language) pass. -/
def processPassSet (tr : Val → Except String String) (cb : Bool)
    (sep : String) (df : DataFrame) (scol tcol : String) (st : TState) :
    Except String TState :=
  let rows := eligibleRows df tcol scol
  if rows.isEmpty then .ok st
  else
    let elems := setAllElements df scol rows sep
    if elems.isEmpty then .ok st
    else
      setRowsLoop tr cb sep df scol tcol elems rows
        { st with transCount := st.transCount + elems.length }

/-- The per-row loop of the regular branch: translate the source value,
count it, cast it back to a numeric source dtype if needed, write it,
and invoke the save callback. -/
def regRowsLoop (tr : Val → Except String String) (cb : Bool)
    (df : DataFrame) (scol tcol : String) (srcDtype : Dtype) :
    List Nat → TState → TState
  | [], st => st
  | r :: rest, st =>
    let v := df.cell scol r
    if v.notna then
      let st := { st with
        transCount := st.transCount + 1,
        castWarnings :=
          st.castWarnings + (if regCastWarns tr srcDtype v then 1 else 0) }
      let st := { st with df := st.df.setCell tcol r (regWrittenVal tr srcDtype v) }
      regRowsLoop tr cb df scol tcol srcDtype rest (pushSnap cb st)
    else regRowsLoop tr cb df scol tcol srcDtype rest st

/-- The regular branch for one (base, target-language) pass. -/
def processPassReg (tr : Val → Except String String) (cb : Bool)
    (df : DataFrame) (scol tcol : String) (srcDtype : Dtype) (st : TState) :
    TState :=
  regRowsLoop tr cb df scol tcol srcDtype (eligibleRows df tcol scol) st

/-- The loop over the target languages of one base column. -/
def langsLoop (tr : Val → Except String String) (cb : Bool) (cfg : EngineCfg)
    (setCols : List String) (df : DataFrame) (base scol : String) :
    List (String × String) → TState → Except String TState
  | [], st => .ok st
  | (l, tcol) :: rest, st =>
    if l = cfg.sourceLang then
      langsLoop tr cb cfg setCols df base scol rest st
    else if base ∈ setCols then
      match processPassSet tr cb cfg.setSeparator df scol tcol st with
      | .error e => .error e
      | .ok st => langsLoop tr cb cfg setCols df base scol rest st
    else
      langsLoop tr cb cfg setCols df base scol rest
        (processPassReg tr cb df scol tcol (df.dtypeOf scol) st)

/-- The loop over the (non-excluded) base columns: groups missing the
source-language column are skipped with a warning. -/
def basesLoop (tr : Val → Except String String) (cb : Bool) (cfg : EngineCfg)
    (setCols : List String) (df : DataFrame) :
    List String → TState → Except String TState
  | [], st => .ok st
  | base :: rest, st =>
    let lcs := getLanguageColumns df base cfg.fieldLangSeparator
    match lookupLang lcs cfg.sourceLang with
    | none => basesLoop tr cb cfg setCols df rest st
    | some scol =>
      match langsLoop tr cb cfg setCols df base scol lcs st with
      | .error e => .error e
      | .ok st => basesLoop tr cb cfg setCols df rest st

/-- The dtype-alignment loop over the target columns of one group:
`df_translated[target_col] = df_translated[target_col].astype(source_dtype)`. -/
def astypeLangs (source : String) (d : Dtype) :
    List (String × String) → DataFrame → Except String DataFrame
  | [], acc => .ok acc
  | (l, tcol) :: rest, acc =>
    if l = source then astypeLangs source d rest acc
    else
      match astypeColumn acc tcol d with
      | .error e => .error e
      | .ok acc => astypeLangs source d rest acc

/-- The dtype-alignment loop over all base columns (run before
translation, with no exclusion applied). -/
def astypeBases (cfg : EngineCfg) (df : DataFrame) :
    List String → DataFrame → Except String DataFrame
  | [], acc => .ok acc
  | base :: rest, acc =>
    let lcs := getLanguageColumns df base cfg.fieldLangSeparator
    match lookupLang lcs cfg.sourceLang with
    | none => astypeBases cfg df rest acc
    | some scol =>
      match astypeLangs cfg.sourceLang (df.dtypeOf scol) lcs acc with
      | .error e => .error e
      | .ok acc => astypeBases cfg df rest acc

/-- `TranslationEngine.translate_dataframe`.  `cb` is whether a save
callback was supplied.  All eligibility reads go to the input `df`; all
writes go to the copy `df_translated` carried in the state.  The
`list(set(base_columns) - set(exclude_columns))` subtraction is
modelled as a filter (its iteration order is unspecified in Python; the
final dataframe does not depend on it). -/
def translateDataframe (tr : Val → Except String String) (cfg : EngineCfg)
    (df : DataFrame) (setCols exCols : List String) (cb : Bool) :
    Except String TState :=
  let allBases := getBaseColumns df.colNames cfg.fieldLangSeparator
  match astypeBases cfg df allBases df with
  | .error e => .error e
  | .ok dft =>
    basesLoop tr cb cfg setCols df (allBases.filter (fun b => b ∉ exCols))
      { df := dft, transCount := 0, castWarnings := 0, snaps := [] }

/-- The checkpoint filter implemented by `save_progress`:
`translation_count` is incremented at every callback invocation, and
the snapshot is written out when
`save_interval and (translation_count - last_save) >= save_interval`. -/
def savesLoop (k : Nat) : List DataFrame → Nat → Nat → List DataFrame
  | [], _, _ => []
  | s :: rest, count, lastSave =>
    let count := count + 1
    if k ≠ 0 ∧ count - lastSave ≥ k then s :: savesLoop k rest count count
    else savesLoop k rest count lastSave

/-- Specification of the checkpoint pattern: keep a snapshot each time
`k` further units have completed since the last kept snapshot (`j`
units have completed since the last kept one so far). -/
def everyKth (k : Nat) : Nat → List DataFrame → List DataFrame
  | _, [] => []
  | j, s :: rest =>
    if (j + 1) % k = 0 then s :: everyKth k 0 rest
    else everyKth k (j + 1) rest

/-- `TranslationEngine.process_file`, with the CSV read abstracted to
the dataframe argument and the CSV writes returned in order: the
checkpoint snapshots selected by `save_progress`, then the final
unconditional write of the translated dataframe. -/
def processFile (tr : Val → Except String String) (cfg : EngineCfg)
    (df : DataFrame) (setCols exCols : List String)
    (saveInterval : Option Nat) : Except String (List DataFrame) :=
  let k := saveInterval.getD 0
  match translateDataframe tr cfg df setCols exCols (k ≠ 0) with
  | .error e => .error e
  | .ok out => .ok (savesLoop k out.snaps 0 0 ++ [out.df])

/-! ## Specification helpers for the claims -/

/-- The effective translation of one already-stripped set element
through `translate_values`: empty elements are kept, a failed
translation keeps the element. -/
def elemTrStr (tr : Val → Except String String) (k : String) : String :=
  if k = "" then k
  else
    match tr (Val.vstr k) with
    | .ok t => t
    | .error _ => k

/-- The value the set branch writes for a source cell: the cell string
split on the set separator, each element stripped and translated, and
the results rejoined with the same separator in the original order. -/
def setCellSpec (tr : Val → Except String String) (sep : String) (v : Val) :
    String :=
  String.intercalate sep
    ((pySplit sep (pyStr v)).map fun e => elemTrStr tr (pystrip e))

/-- The values actually submitted to the protector/client pipeline by
one set-column pass: the valid entries of `all_elements` (this is the
list the per-value loop of `translate_values` iterates over). -/
def setPassSubmitted (tr : Val → Except String String) (df : DataFrame)
    (scol tcol sep : String) : List Val :=
  let _ := tr
  ((setAllElements df scol (eligibleRows df tcol scol) sep).map
      Val.vstr).filter validVal

/-- The number of translations one (base, target-language) pass adds to
`translation_count`, as a function of the input dataframe. -/
def passCountSpec (df : DataFrame) (setCols : List String) (sep : String)
    (base scol tcol : String) : Nat :=
  let rows := eligibleRows df tcol scol
  if base ∈ setCols then
    if rows.isEmpty then 0
    else
      let elems := setAllElements df scol rows sep
      if elems.isEmpty then 0 else elems.length
  else rows.length

/-- The `translation_count` contribution of the passes of one base
column. -/
def baseCountSpec (cfg : EngineCfg) (df : DataFrame) (setCols : List String)
    (base : String) : Nat :=
  match sourceColFor df cfg.fieldLangSeparator cfg.sourceLang base with
  | none => 0
  | some scol =>
    ((getLanguageColumns df base cfg.fieldLangSeparator).map fun p =>
      if p.1 = cfg.sourceLang then 0
      else passCountSpec df setCols cfg.setSeparator base scol p.2).sum

/-- The total `translation_count` of a run over a list of bases. -/
def basesCountSpec (cfg : EngineCfg) (df : DataFrame) (setCols : List String)
    (bases : List String) : Nat :=
  (bases.map (baseCountSpec cfg df setCols)).sum

/-- The total `translation_count` of a run, as a function of the input
dataframe. -/
def totalCountSpec (cfg : EngineCfg) (df : DataFrame)
    (setCols exCols : List String) : Nat :=
  basesCountSpec cfg df setCols
    ((getBaseColumns df.colNames cfg.fieldLangSeparator).filter
      (fun b => b ∉ exCols))

/-- The source column against which a column is translated (if any): `c`
must be a non-source language variant of a base among `bases` whose
source column exists. -/
def writeAction (cfg : EngineCfg) (df : DataFrame) (bases : List String)
    (c : String) : Option String :=
  match baseLangOf cfg.fieldLangSeparator c with
  | none => none
  | some (b, l) =>
    if l = cfg.sourceLang then none
    else if b ∈ bases then
      match sourceColFor df cfg.fieldLangSeparator cfg.sourceLang b with
      | none => none
      | some scol => if c ∈ df.colNames then some scol else none
    else none

/-- The value of the astype phase on one cell, with a failed cast left
in place (a run that returns `.ok` never takes that branch). -/
def castCellSpec (cfg : EngineCfg) (df : DataFrame) (c : String) (r : Nat) :
    Val :=
  match astypeAction cfg df (getBaseColumns df.colNames cfg.fieldLangSeparator)
      c with
  | none => df.cell c r
  | some d =>
    match castValAs d (df.cell c r) with
    | .ok w => w
    | .error _ => df.cell c r

/-- The cell-level specification of `translate_dataframe`: every cell of
the returned dataframe equals this function of the input dataframe. -/
def specCell (tr : Val → Except String String) (cfg : EngineCfg)
    (df : DataFrame) (setCols exCols : List String) (c : String) (r : Nat) :
    Val :=
  match writeAction cfg df
      (((getBaseColumns df.colNames cfg.fieldLangSeparator).filter
        (fun b => b ∉ exCols))) c with
  | none => castCellSpec cfg df c r
  | some scol =>
    match baseLangOf cfg.fieldLangSeparator c with
    | none => castCellSpec cfg df c r
    | some (b, _) =>
      if b ∈ setCols then
        if r ∈ eligibleRows df c scol ∧
            ¬ (setAllElements df scol (eligibleRows df c scol)
              cfg.setSeparator).isEmpty then
          Val.vstr (setCellSpec tr cfg.setSeparator (df.cell scol r))
        else castCellSpec cfg df c r
      else
        if r ∈ eligibleRows df c scol then
          regWrittenVal tr (df.dtypeOf scol) (df.cell scol r)
        else castCellSpec cfg df c r

/-- The effect of one (base, target-language) pass on one cell of its
target column, as a function of the input dataframe and the cell's
previous value. -/
def passCellVal (tr : Val → Except String String) (setCols : List String)
    (sep : String) (df : DataFrame) (base scol tcol : String) (r : Nat)
    (prev : Val) : Val :=
  if base ∈ setCols then
    if r ∈ eligibleRows df tcol scol ∧
        ¬ (setAllElements df scol (eligibleRows df tcol scol) sep).isEmpty then
      Val.vstr (setCellSpec tr sep (df.cell scol r))
    else prev
  else
    if r ∈ eligibleRows df tcol scol then
      regWrittenVal tr (df.dtypeOf scol) (df.cell scol r)
    else prev

/-- The number of numeric-cast warnings one (base, target-language)
pass logs (only the regular branch attempts the cast back). -/
def passWarnsSpec (tr : Val → Except String String) (df : DataFrame)
    (setCols : List String) (base scol tcol : String) : Nat :=
  if base ∈ setCols then 0
  else ((eligibleRows df tcol scol).filter
    (fun r => regCastWarns tr (df.dtypeOf scol) (df.cell scol r))).length

/-- The cast-warning count contributed by the passes of one base
column. -/
def baseWarnsSpec (tr : Val → Except String String) (cfg : EngineCfg)
    (df : DataFrame) (setCols : List String) (base : String) : Nat :=
  match sourceColFor df cfg.fieldLangSeparator cfg.sourceLang base with
  | none => 0
  | some scol =>
    ((getLanguageColumns df base cfg.fieldLangSeparator).map fun p =>
      if p.1 = cfg.sourceLang then 0
      else passWarnsSpec tr df setCols base scol p.2).sum

/-- The total cast-warning count of a run, as a function of the input
dataframe. -/
def totalWarnsSpec (tr : Val → Except String String) (cfg : EngineCfg)
    (df : DataFrame) (setCols exCols : List String) : Nat :=
  (((getBaseColumns df.colNames cfg.fieldLangSeparator).filter
    (fun b => b ∉ exCols)).map (baseWarnsSpec tr cfg df setCols)).sum

/-! ## Concrete fixtures (used by witnesses and counterexamples) -/

/-- The standard configuration (`SOURCE_LANG=en-US`,
`TRANSLATION_SET_SEPARATOR=", "`, `FIELD_LANG_SEPARATOR="."`). -/
def cfgStd : EngineCfg :=
  { sourceLang := "en-US", setSeparator := ", ", fieldLangSeparator := "." }

/-- A translation pipeline that always succeeds, prefixing `T`. -/
def trUp : Val → Except String String
  | .vstr s => .ok ("T" ++ s)
  | v => .ok ("T" ++ pyStr v)

/-- A translation pipeline whose per-value body always raises. -/
def trBoom : Val → Except String String := fun _ => .error "boom"

/-- A translation pipeline that always answers a non-numeric word. -/
def trWord : Val → Except String String := fun _ => .ok "cinq"

/-- A translation pipeline that always answers the numeral `55`. -/
def trNum : Val → Except String String := fun _ => .ok "55"

/-- The `ok` payload of a run (fixtures only apply it to runs that are
`ok`). -/
def runOut (e : Except String TState) : TState :=
  e.toOption.getD ⟨⟨0, []⟩, 0, 0, []⟩

/-- A regular (non-set) two-language frame with a plain `id` column. -/
def dfReg : DataFrame :=
  { nrows := 2,
    columns := [
      { name := "name.en-US", dtype := .object,
        vals := [Val.vstr "red", Val.vstr "blue"] },
      { name := "name.fr-FR", dtype := .object,
        vals := [Val.na, Val.vstr "done"] },
      { name := "id", dtype := .numeric, vals := [Val.vint 1, Val.vint 2] }] }

/-- A frame whose populated target cell `"5"` sits in an object column
while the source column is numeric (the astype phase coerces it). -/
def dfCast : DataFrame :=
  { nrows := 1,
    columns := [
      { name := "n.en-US", dtype := .numeric, vals := [Val.vint 7] },
      { name := "n.fr-FR", dtype := .object, vals := [Val.vstr "5"] }] }

/-- A set-column frame with two eligible rows. -/
def dfSet : DataFrame :=
  { nrows := 2,
    columns := [
      { name := "tags.en-US", dtype := .object,
        vals := [Val.vstr "a, b", Val.vstr "b, c"] },
      { name := "tags.fr-FR", dtype := .object, vals := [Val.na, Val.na] }] }

/-- A set-column frame whose two eligible source cells hold the same
element. -/
def dfDup : DataFrame :=
  { nrows := 2,
    columns := [
      { name := "tags.en-US", dtype := .object,
        vals := [Val.vstr "x", Val.vstr "x"] },
      { name := "tags.fr-FR", dtype := .object, vals := [Val.na, Val.na] }] }

/-- A numeric-source group with an empty target cell. -/
def dfNum : DataFrame :=
  { nrows := 1,
    columns := [
      { name := "n.en-US", dtype := .numeric, vals := [Val.vint 7] },
      { name := "n.fr-FR", dtype := .numeric, vals := [Val.na] }] }

/-- The output state of a regular-branch run on `dfReg`. -/
def outC3w : TState := runOut (translateDataframe trUp cfgStd dfReg [] [] false)

/-- The output state of a second run on the first run's output. -/
def outC3w2 : TState :=
  runOut (translateDataframe trUp cfgStd outC3w.df [] [] false)

/-- The output state of a run on `dfCast` (no translation happens, the
oracle always raises). -/
def outC3c : TState :=
  runOut (translateDataframe trBoom cfgStd dfCast [] [] false)

/-- The output state of a set-column run on `dfSet`. -/
def outC4w : TState :=
  runOut (translateDataframe trUp cfgStd dfSet ["tags"] [] false)

/-- The output state of a numeric-source run whose translation is not a
numeral. -/
def outC7w : TState :=
  runOut (translateDataframe trWord cfgStd dfNum [] [] false)

/-- The output state of a run translating a numeric-source group
declared as a set column. -/
def outC7c : TState :=
  runOut (translateDataframe trNum cfgStd dfNum ["n"] [] false)

/-- The output state of the checkpointed run on `dfSet`. -/
def outC8 : TState := runOut (translateDataframe trUp cfgStd dfSet ["tags"] [] true)

/-- The writes of `process_file` on `dfSet` with `save_interval = 1`. -/
def wsC8 : List DataFrame :=
  (processFile trUp cfgStd dfSet ["tags"] [] (some 1)).toOption.getD []

/-- The output state of a run on `dfReg` with a save callback. -/
def outC9w : TState := runOut (translateDataframe trUp cfgStd dfReg [] [] true)

/-! # Lemmas -/

/-! ## Python string stripping -/

theorem stripL_eq_rdropWhile (l : List Char) :
    stripL l = List.rdropWhile isWs (l.dropWhile isWs) := rfl

theorem head?_dropWhile_ws (m : List Char) (x : Char)
    (hx : (m.dropWhile isWs).head? = some x) : isWs x = false := by
  induction m with
  | nil => simp at hx
  | cons a as ih =>
    by_cases ha : isWs a
    · rw [List.dropWhile_cons_of_pos ha] at hx
      exact ih hx
    · rw [List.dropWhile_cons_of_neg ha] at hx
      simp only [List.head?_cons, Option.some.injEq] at hx
      rw [← hx]
      simpa using ha

theorem stripL_idem (l : List Char) : stripL (stripL l) = stripL l := by
  rw [stripL_eq_rdropWhile, stripL_eq_rdropWhile]
  have h1 : ∀ (B : List Char), (∃ t, B ++ t = l.dropWhile isWs) →
      B.dropWhile isWs = B := by
    intro B hBt
    match B with
    | [] => simp
    | x :: xs =>
      obtain ⟨t, ht⟩ := hBt
      have hA' : l.dropWhile isWs = x :: (xs ++ t) := by
        rw [← ht]
        simp
      have hx : isWs x = false := by
        apply head?_dropWhile_ws l x
        rw [hA']
        rfl
      rw [List.dropWhile_cons_of_neg (by simp [hx])]
  obtain ⟨t, ht⟩ := List.rdropWhile_prefix isWs (l.dropWhile isWs)
  rw [h1 _ ⟨t, ht⟩, List.rdropWhile_idempotent]

theorem pystrip_idem (s : String) : pystrip (pystrip s) = pystrip s := by
  unfold pystrip
  exact congrArg String.mk (stripL_idem s.data)

theorem pystrip_empty : pystrip "" = "" := rfl

/-! ## `translate_values` characterization -/

theorem find_zip_map (g : Val → Val) (vs : List Val) (k : Val) :
    ((vs.zip (vs.map g)).reverse.find? fun p => p.1 == k) =
      if k ∈ vs then some (k, g k) else none := by
  induction vs with
  | nil => simp
  | cons v rest ih =>
    simp only [List.map_cons, List.zip_cons_cons, List.reverse_cons,
      List.find?_append, ih]
    by_cases hk : k ∈ rest
    · simp [hk]
    · by_cases hv : v = k
      · subst hv
        simp [hk]
      · have hkv : k ∉ v :: rest := by
          intro hmem
          rcases List.mem_cons.mp hmem with h1 | h2
          · exact hv h1.symm
          · exact hk h2
        simp [hk, hkv, List.find?_cons, hv]

theorem dictGet_zip_map (g : Val → Val) (vs : List Val) (k : Val) :
    dictGet (vs.zip (vs.map g)) k = if k ∈ vs then some (g k) else none := by
  unfold dictGet
  rw [find_zip_map]
  by_cases hk : k ∈ vs <;> simp [hk]

theorem translateValues_length (tr : Val → Except String String)
    (vs : List Val) : (translateValues tr vs).length = vs.length := by
  unfold translateValues
  by_cases h : (vs.filter validVal).isEmpty <;> simp [h]

/-- Pointwise behaviour of `translate_values`: position `i` is looked up
by the stripped string form of its value among the submitted (valid)
values; a hit returns that submitted value's translation, a miss (and a
NaN) returns the original value. -/
theorem translateValues_getD (tr : Val → Except String String)
    (vs : List Val) (i : Nat) (hi : i < vs.length) (d v : Val)
    (hv : vs.getD i d = v) :
    (translateValues tr vs).getD i d =
      (if v.notna then
        if Val.vstr (pystrip (pyStr v)) ∈ vs.filter validVal then
          trFun tr (Val.vstr (pystrip (pyStr v)))
        else v
      else v) := by
  unfold translateValues
  by_cases h : (vs.filter validVal).isEmpty
  · have hempty : vs.filter validVal = [] := List.isEmpty_iff.mp h
    simp only [hempty, List.isEmpty_nil, if_true, List.not_mem_nil, if_false]
    rw [hv]
    by_cases hn : v.notna <;> simp [hn]
  · have h' : (vs.filter validVal).isEmpty = false := by
      simpa using h
    simp only [h', Bool.false_eq_true, if_false]
    have hvi : vs[i] = v := by
      rw [← List.getD_eq_getElem vs d hi, hv]
    rw [List.getD_eq_getElem _ _ (by simpa using hi), List.getElem_map, hvi]
    have hg : (fun v =>
        match tr v with
        | .ok t => Val.vstr t
        | .error _ => v) = trFun tr := rfl
    show (if v.notna then
        (dictGet ((vs.filter validVal).zip ((vs.filter validVal).map
          (trFun tr))) (Val.vstr (pystrip (pyStr v)))).getD v
      else v) = _
    rw [dictGet_zip_map (trFun tr) (vs.filter validVal)
      (Val.vstr (pystrip (pyStr v)))]
    by_cases hn : v.notna
    · by_cases hm : Val.vstr (pystrip (pyStr v)) ∈ vs.filter validVal
      · simp [hn, hm]
      · simp [hn, hm]
    · simp [hn]

/-- A clean submitted string (equal to its own stripped form, not blank)
is always replaced by its own translation. -/
theorem translateValues_getD_clean (tr : Val → Except String String)
    (vs : List Val) (i : Nat) (hi : i < vs.length) (d : Val) (s : String)
    (hv : vs.getD i d = Val.vstr s) (hst : pystrip s = s) (hs : s ≠ "") :
    (translateValues tr vs).getD i d = trFun tr (Val.vstr s) := by
  rw [translateValues_getD tr vs i hi d (Val.vstr s) hv]
  have hvalid : validVal (Val.vstr s) = true := by
    simp [validVal, Val.notna, pyStr, hst, hs]
  have hmem : Val.vstr s ∈ vs.filter validVal := by
    rw [List.mem_filter]
    refine ⟨?_, hvalid⟩
    rw [← hv, List.getD_eq_getElem _ _ hi]
    exact List.getElem_mem hi
  simp [Val.notna, pyStr, hst, hmem]

/-- A NaN position is returned unchanged. -/
theorem translateValues_getD_na (tr : Val → Except String String)
    (vs : List Val) (i : Nat) (hi : i < vs.length) (d : Val)
    (hv : vs.getD i d = Val.na) :
    (translateValues tr vs).getD i d = Val.na := by
  rw [translateValues_getD tr vs i hi d Val.na hv]
  rfl

/-- A position whose stripped string form does not occur among the
submitted values is returned unchanged. -/
theorem translateValues_getD_miss (tr : Val → Except String String)
    (vs : List Val) (i : Nat) (hi : i < vs.length) (d v : Val)
    (hv : vs.getD i d = v)
    (hm : Val.vstr (pystrip (pyStr v)) ∉ vs.filter validVal) :
    (translateValues tr vs).getD i d = v := by
  rw [translateValues_getD tr vs i hi d v hv]
  by_cases hn : v.notna <;> simp [hn, hm]

/-- Characterization of `translations[0]` for a single-value call. -/
theorem singleTranslated_eq (tr : Val → Except String String) (v : Val) :
    singleTranslated tr v =
      (if pystrip (pyStr v) = pyStr v ∧ pystrip (pyStr v) ≠ "" then
        trFun tr (Val.vstr (pyStr v))
      else Val.vstr (pyStr v)) := by
  unfold singleTranslated
  by_cases hblank : pystrip (pyStr v) = ""
  · have hmiss : Val.vstr (pystrip (pyStr (Val.vstr (pyStr v)))) ∉
        ([Val.vstr (pyStr v)].filter validVal) := by
      intro hmem
      have hval := (List.mem_filter.mp hmem).2
      have hv' := (List.mem_filter.mp hmem).1
      simp only [List.mem_singleton] at hv'
      rw [hv'] at hval
      simp only [validVal, Val.notna, Bool.true_and, Bool.not_eq_true',
        beq_eq_false_iff_ne, ne_eq] at hval
      exact hval hblank
    rw [translateValues_getD_miss tr [Val.vstr (pyStr v)] 0 (by simp)
      (Val.vstr (pyStr v)) (Val.vstr (pyStr v)) rfl hmiss]
    have hcond : ¬ (pystrip (pyStr v) = pyStr v ∧ pystrip (pyStr v) ≠ "") :=
      fun h => h.2 hblank
    rw [if_neg hcond]
  · by_cases hclean : pystrip (pyStr v) = pyStr v
    · rw [translateValues_getD_clean tr [Val.vstr (pyStr v)] 0 (by simp)
        (Val.vstr (pyStr v)) (pyStr v) rfl hclean
        (fun hc => hblank (by rw [hclean, hc]))]
      rw [if_pos ⟨hclean, hblank⟩]
    · have hmiss : Val.vstr (pystrip (pyStr (Val.vstr (pyStr v)))) ∉
          ([Val.vstr (pyStr v)].filter validVal) := by
        intro hmem
        have hv' := (List.mem_filter.mp hmem).1
        simp only [List.mem_singleton, pyStr, Val.vstr.injEq] at hv'
        exact hclean hv'
      rw [translateValues_getD_miss tr [Val.vstr (pyStr v)] 0 (by simp)
        (Val.vstr (pyStr v)) (Val.vstr (pyStr v)) rfl hmiss]
      have hcond : ¬ (pystrip (pyStr v) = pyStr v ∧ pystrip (pyStr v) ≠ "") :=
        fun h => hclean h.1
      rw [if_neg hcond]

/-- `singleTranslated` always produces a string value. -/
theorem singleTranslated_vstr (tr : Val → Except String String) (v : Val) :
    ∃ s, singleTranslated tr v = Val.vstr s := by
  rw [singleTranslated_eq]
  by_cases h : pystrip (pyStr v) = pyStr v ∧ pystrip (pyStr v) ≠ ""
  · rw [if_pos h]
    unfold trFun
    cases tr (Val.vstr (pyStr v)) with
    | ok t => exact ⟨t, rfl⟩
    | error e => exact ⟨pyStr v, rfl⟩
  · rw [if_neg h]
    exact ⟨pyStr v, rfl⟩

theorem trFun_vstr_eq_elemTrStr (tr : Val → Except String String)
    (k : String) (hk : k ≠ "") :
    trFun tr (Val.vstr k) = Val.vstr (elemTrStr tr k) := by
  unfold trFun elemTrStr
  cases tr (Val.vstr k) <;> simp [hk]

/-- Pointwise value of `translate_values` on a list of already-stripped
set elements. -/
theorem translateValues_elems (tr : Val → Except String String)
    (elems : List String) (hall : ∀ k ∈ elems, pystrip k = k)
    (i : Nat) (hi : i < elems.length) (d : Val) (k : String)
    (hk : elems.getD i "" = k) :
    (translateValues tr (elems.map Val.vstr)).getD i d =
      Val.vstr (elemTrStr tr k) := by
  have hkm : (elems.map Val.vstr).getD i d = Val.vstr k := by
    rw [List.getD_eq_getElem _ _ (by simpa using hi), List.getElem_map,
      ← List.getD_eq_getElem elems "" hi, hk]
  have hmem : k ∈ elems := by
    rw [← hk, List.getD_eq_getElem _ _ hi]
    exact List.getElem_mem hi
  have hstrip : pystrip k = k := hall _ hmem
  by_cases hne : k = ""
  · subst hne
    have hmiss : Val.vstr (pystrip (pyStr (Val.vstr ""))) ∉
        ((elems.map Val.vstr).filter validVal) := by
      intro hmemf
      have hval := (List.mem_filter.mp hmemf).2
      simp [validVal, Val.notna, pyStr, pystrip_empty] at hval
    rw [translateValues_getD_miss tr (elems.map Val.vstr) i
      (by simpa using hi) d (Val.vstr "") hkm hmiss]
    simp [elemTrStr]
  · rw [translateValues_getD_clean tr (elems.map Val.vstr) i
      (by simpa using hi) d k hkm hstrip hne]
    exact trFun_vstr_eq_elemTrStr tr _ hne

/-! ## `pyIndex` and `exceptMapList` -/

theorem pyIndex_some (l : List String) (x : String) (i : Nat)
    (h : pyIndex l x = some i) : i < l.length ∧ l.getD i "" = x := by
  induction l generalizing i with
  | nil => simp [pyIndex] at h
  | cons y ys ih =>
    unfold pyIndex at h
    by_cases hy : y = x
    · simp only [hy, if_true, Option.some.injEq] at h
      subst h
      simp [hy]
    · simp only [hy, if_false] at h
      cases hj : pyIndex ys x with
      | none => rw [hj] at h; simp at h
      | some j =>
        rw [hj] at h
        have hij : j + 1 = i := by
          simpa using h
        obtain ⟨hjl, hjx⟩ := ih j hj
        subst hij
        constructor
        · simpa using hjl
        · simpa using hjx

theorem exceptMapList_ok (f : α → Except ε β) (l : List α) (out : List β)
    (h : exceptMapList f l = .ok out) :
    out.length = l.length ∧
      ∀ i, i < l.length → ∀ da db, f (l.getD i da) = .ok (out.getD i db) := by
  induction l generalizing out with
  | nil =>
    unfold exceptMapList at h
    cases h
    simp
  | cons x xs ih =>
    unfold exceptMapList at h
    cases hf : f x with
    | error e => rw [hf] at h; cases h
    | ok y =>
      rw [hf] at h
      cases hrest : exceptMapList f xs with
      | error e => rw [hrest] at h; cases h
      | ok ys =>
        rw [hrest] at h
        cases h
        obtain ⟨hlen, hpt⟩ := ih ys hrest
        constructor
        · simp [hlen]
        · intro i hi da db
          cases i with
          | zero => simpa using hf
          | succ j =>
            simp only [List.getD_cons_succ]
            exact hpt j (by simpa using hi) da db

/-! ## Translation service lemmas -/

theorem batchLoop_success_len (api : Nat → ApiOutcome) (len : Nat) :
    ∀ (fuel a : Nat) (ts : List String),
      (batchLoop api len a fuel).result = .success ts → ts.length = len := by
  intro fuel
  induction fuel with
  | zero =>
    intro a ts h
    simp [batchLoop] at h
  | succ f ih =>
    intro a ts h
    cases f with
    | zero =>
      unfold batchLoop at h
      split at h
      · split at h
        · simp at h
        · simp only [BatchResult.success.injEq] at h
          rename_i hlen
          rw [← h]
          omega
      · simp at h
    | succ f' =>
      unfold batchLoop at h
      split at h
      · split at h
        · exact ih (a + 1) ts h
        · simp only [BatchResult.success.injEq] at h
          rename_i hlen
          rw [← h]
          omega
      · exact ih (a + 1) ts h

theorem batchLoop_ne_pyNone (api : Nat → ApiOutcome) (len : Nat) :
    ∀ (fuel a : Nat), 1 ≤ fuel →
      (batchLoop api len a fuel).result ≠ .pyNone := by
  intro fuel
  induction fuel with
  | zero => omega
  | succ f ih =>
    intro a _
    cases f with
    | zero =>
      unfold batchLoop
      split
      · split
        · simp
        · simp
      · simp
    | succ f' =>
      unfold batchLoop
      split
      · split
        · exact ih (a + 1) (by omega)
        · simp
      · exact ih (a + 1) (by omega)

theorem batchLoop_all_mismatch (api : Nat → ApiOutcome) (len : Nat) :
    ∀ (fuel a : Nat), 1 ≤ fuel →
      (∀ i, a ≤ i → i < a + fuel →
        ∃ c, api i = .ok c ∧ (processResponse c).length ≠ len) →
      (∃ msg, (batchLoop api len a fuel).result = .failure msg) ∧
      (batchLoop api len a fuel).calls = fuel ∧
      (batchLoop api len a fuel).delays =
        (List.range (fuel - 1)).map (fun j => 2 ^ (a + j)) := by
  intro fuel
  induction fuel with
  | zero => omega
  | succ f ih =>
    intro a _ hmm
    obtain ⟨c, hc, hmis⟩ := hmm a (le_refl a) (by omega)
    cases f with
    | zero =>
      unfold batchLoop
      split
      · rename_i c' heq
        have hcc : c = c' := by
          injection hc.symm.trans heq
        subst hcc
        rw [if_pos hmis]
        exact ⟨⟨_, rfl⟩, rfl, by simp⟩
      · rename_i m heq
        exact ApiOutcome.noConfusion (hc.symm.trans heq)
    | succ f' =>
      obtain ⟨⟨msg, hres⟩, hcalls, hdelays⟩ := ih (a + 1) (by omega)
        (fun i h1 h2 => hmm i (by omega) (by omega))
      unfold batchLoop
      split
      · rename_i c' heq
        have hcc : c = c' := by
          injection hc.symm.trans heq
        subst hcc
        rw [if_pos hmis]
        refine ⟨⟨msg, hres⟩, by rw [hcalls], ?_⟩
        show 2 ^ a :: (batchLoop api len (a + 1) (f' + 1)).delays = _
        rw [hdelays]
        have he1 : f' + 1 + 1 - 1 = f' + 1 := by omega
        have he2 : f' + 1 - 1 = f' := by omega
        rw [he1, he2, List.range_succ_eq_map]
        simp only [List.map_cons, List.map_map, Nat.add_zero]
        congr 1
        apply List.map_congr_left
        intro j _
        simp only [Function.comp_apply]
        congr 1
        omega
      · rename_i m heq
        exact ApiOutcome.noConfusion (hc.symm.trans heq)

theorem translateBatch_success_len (api : Nat → ApiOutcome)
    (texts : List String) (m : Nat) (ts : List String)
    (h : (translateBatch api texts m).result = .success ts) :
    ts.length = texts.length := by
  unfold translateBatch at h
  by_cases hne : texts.isEmpty
  · rw [if_pos hne] at h
    simp only [BatchResult.success.injEq] at h
    rw [← h, List.isEmpty_iff.mp hne]
  · rw [if_neg hne] at h
    exact batchLoop_success_len api texts.length m 0 ts h

theorem pyChunksFuel_flatten (bs : Nat) (hbs : 1 ≤ bs) :
    ∀ (fuel : Nat) (l : List String), l.length ≤ fuel →
      (pyChunksFuel bs fuel l).flatten = l := by
  intro fuel
  induction fuel with
  | zero =>
    intro l hl
    cases l with
    | nil => rfl
    | cons x xs => simp at hl
  | succ f ih =>
    intro l hl
    cases l with
    | nil => rfl
    | cons x xs =>
      show (if bs = 0 then [] else
        (x :: xs).take bs :: pyChunksFuel bs f ((x :: xs).drop bs)).flatten =
          x :: xs
      rw [if_neg (by omega : ¬ bs = 0)]
      rw [List.flatten_cons]
      have hdl : ((x :: xs).drop bs).length ≤ f := by
        have hl' : xs.length + 1 ≤ f + 1 := by simpa using hl
        simp only [List.length_drop, List.length_cons]
        omega
      rw [ih ((x :: xs).drop bs) hdl]
      exact List.take_append_drop bs (x :: xs)

theorem pyChunks_flatten (bs : Nat) (hbs : 1 ≤ bs) :
    ∀ (l : List String), (pyChunks bs l).flatten = l :=
  fun l => pyChunksFuel_flatten bs hbs l.length l (le_refl _)

theorem getD_range_map (l : List α) (d : α) :
    (List.range l.length).map (fun j => l.getD j d) = l := by
  induction l with
  | nil => simp
  | cons x xs ih =>
    rw [List.length_cons, List.range_succ_eq_map]
    simp only [List.map_cons, List.getD_cons_zero, List.map_map]
    have hco : ((fun j => (x :: xs).getD j d) ∘ Nat.succ) =
        fun j => xs.getD j d := by
      funext j
      simp
    rw [hco, ih]

theorem textsLoop_spec (api : Nat → Nat → ApiOutcome) :
    ∀ (cs : List (List String)) (k0 : Nat),
      successCount api cs k0 ≤ cs.length ∧
        (∀ j, j < successCount api cs k0 → ∃ ts,
          (translateBatch (api (k0 + j)) (cs.getD j []) 3).result =
            .success ts) ∧
        (successCount api cs k0 < cs.length → ∀ ts,
          (translateBatch (api (k0 + successCount api cs k0))
              (cs.getD (successCount api cs k0) []) 3).result ≠
            .success ts) ∧
        textsLoop api cs k0 =
          ((List.range (successCount api cs k0)).map
            (fun j => batchSuccess (api) (cs.getD j []) (k0 + j))).flatten := by
  intro cs
  induction cs with
  | nil =>
    intro k0
    exact ⟨by simp [successCount], by simp [successCount], by simp [successCount],
      by simp [textsLoop, successCount]⟩
  | cons b rest ih =>
    intro k0
    cases hres : (translateBatch (api k0) b 3).result with
    | success ts =>
      have hsc : successCount api (b :: rest) k0 =
          successCount api rest (k0 + 1) + 1 := by
        simp [successCount, hres]
      rw [hsc]
      obtain ⟨hn, hsucc, hfail, heq⟩ := ih (k0 + 1)
      set n := successCount api rest (k0 + 1) with hndef
      refine ⟨by simpa using hn, ?_, ?_, ?_⟩
      · intro j hj
        cases j with
        | zero =>
          refine ⟨ts, ?_⟩
          simpa using hres
        | succ j' =>
          obtain ⟨ts', hts'⟩ := hsucc j' (by omega)
          refine ⟨ts', ?_⟩
          have harg : k0 + (j' + 1) = k0 + 1 + j' := by omega
          rw [harg]
          simpa using hts'
      · intro hlt ts'
        have harg : k0 + (n + 1) = k0 + 1 + n := by omega
        rw [harg]
        have := hfail (by simpa using hlt) ts'
        simpa using this
      · show textsLoop api (b :: rest) k0 = _
        unfold textsLoop
        rw [hres, heq]
        rw [List.range_succ_eq_map]
        simp only [List.map_cons, List.map_map, List.flatten_cons]
        congr 1
        · show ts = batchSuccess api ((b :: rest).getD 0 []) (k0 + 0)
          unfold batchSuccess
          simp only [List.getD_cons_zero, Nat.add_zero]
          rw [hres]
        · congr 1
          apply List.map_congr_left
          intro j _
          simp only [Function.comp_apply, List.getD_cons_succ]
          congr 1
          omega
    | failure msg =>
      have hsc : successCount api (b :: rest) k0 = 0 := by
        simp [successCount, hres]
      rw [hsc]
      refine ⟨by simp, by omega, ?_, ?_⟩
      · intro _ ts
        simp only [Nat.add_zero, List.getD_cons_zero]
        exact fun h => BatchResult.noConfusion (hres.symm.trans h)
      · show textsLoop api (b :: rest) k0 = _
        unfold textsLoop
        rw [hres]
        simp
    | pyNone =>
      have hsc : successCount api (b :: rest) k0 = 0 := by
        simp [successCount, hres]
      rw [hsc]
      refine ⟨by simp, by omega, ?_, ?_⟩
      · intro _ ts
        simp only [Nat.add_zero, List.getD_cons_zero]
        exact fun h => BatchResult.noConfusion (hres.symm.trans h)
      · show textsLoop api (b :: rest) k0 = _
        unfold textsLoop
        rw [hres]
        simp

/-! ## DataFrame operation lemmas -/

theorem find?_map_name (f : Column → Column)
    (hf : ∀ col, (f col).name = col.name) (l : List Column) (c : String) :
    (l.map f).find? (fun col => col.name == c) =
      (l.find? (fun col => col.name == c)).map f := by
  induction l with
  | nil => rfl
  | cons col rest ih =>
    simp only [List.map_cons, List.find?_cons, hf col]
    cases hname : (col.name == c) with
    | true => rfl
    | false => exact ih

theorem getCol_setCell (df : DataFrame) (c : String) (r : Nat) (v : Val)
    (c' : String) :
    (df.setCell c r v).getCol c' =
      (df.getCol c').map (fun col =>
        if col.name = c then { col with vals := col.vals.set r v } else col) := by
  unfold DataFrame.setCell DataFrame.getCol
  simp only
  exact find?_map_name _ (by
    intro col
    by_cases h : col.name = c <;> simp [h]) df.columns c'

theorem getCol_setColumn (df : DataFrame) (c : String) (d : Dtype)
    (vs : List Val) (c' : String) :
    (df.setColumn c d vs).getCol c' =
      (df.getCol c').map (fun col =>
        if col.name = c then { col with dtype := d, vals := vs } else col) := by
  unfold DataFrame.setColumn DataFrame.getCol
  simp only
  exact find?_map_name _ (by
    intro col
    by_cases h : col.name = c <;> simp [h]) df.columns c'

theorem getCol_name (df : DataFrame) (c : String) (col : Column)
    (h : df.getCol c = some col) : col.name = c := by
  unfold DataFrame.getCol at h
  have := List.find?_some h
  simpa using this

theorem cell_setCell_other (df : DataFrame) (c : String) (r : Nat) (v : Val)
    (c' : String) (hc : c' ≠ c) (r' : Nat) :
    (df.setCell c r v).cell c' r' = df.cell c' r' := by
  unfold DataFrame.cell
  rw [getCol_setCell]
  cases hcol : df.getCol c' with
  | none => rfl
  | some col =>
    have hne : ¬ col.name = c := by
      rw [getCol_name df c' col hcol]
      exact hc
    show (if col.name = c then
        { col with vals := col.vals.set r v } else col).vals.getD r' Val.na =
      col.vals.getD r' Val.na
    rw [if_neg hne]

theorem cell_setCell_same_col_other_row (df : DataFrame) (c : String)
    (r : Nat) (v : Val) (r' : Nat) (hr : r' ≠ r) :
    (df.setCell c r v).cell c r' = df.cell c r' := by
  unfold DataFrame.cell
  rw [getCol_setCell]
  cases hcol : df.getCol c with
  | none => rfl
  | some col =>
    show (if col.name = c then
        { col with vals := col.vals.set r v } else col).vals.getD r' Val.na =
      col.vals.getD r' Val.na
    by_cases hname : col.name = c
    · rw [if_pos hname]
      show (col.vals.set r v).getD r' Val.na = col.vals.getD r' Val.na
      rw [List.getD_eq_getElem?_getD, List.getD_eq_getElem?_getD,
        List.getElem?_set_ne (fun h => hr h.symm)]
    · rw [if_neg hname]

theorem cell_setCell_self (df : DataFrame) (c : String) (r : Nat) (v : Val)
    (col : Column) (hcol : df.getCol c = some col)
    (hr : r < col.vals.length) :
    (df.setCell c r v).cell c r = v := by
  unfold DataFrame.cell
  rw [getCol_setCell, hcol]
  show (if col.name = c then
      { col with vals := col.vals.set r v } else col).vals.getD r Val.na = v
  rw [if_pos (getCol_name df c col hcol)]
  show (col.vals.set r v).getD r Val.na = v
  rw [List.getD_eq_getElem?_getD, List.getElem?_set_eq_of_lt _ hr]
  rfl

theorem setCell_colNames (df : DataFrame) (c : String) (r : Nat) (v : Val) :
    (df.setCell c r v).colNames = df.colNames := by
  unfold DataFrame.setCell DataFrame.colNames
  simp only [List.map_map]
  apply List.map_congr_left
  intro col _
  by_cases h : col.name = c <;> simp [h]

theorem setCell_nrows (df : DataFrame) (c : String) (r : Nat) (v : Val) :
    (df.setCell c r v).nrows = df.nrows := rfl

theorem setCell_WF (df : DataFrame) (c : String) (r : Nat) (v : Val)
    (h : df.WF) : (df.setCell c r v).WF := by
  obtain ⟨hlen, hnodup⟩ := h
  constructor
  · intro col hcol
    unfold DataFrame.setCell at hcol
    simp only [List.mem_map] at hcol
    obtain ⟨col0, hcol0, heq⟩ := hcol
    by_cases hname : col0.name = c
    · rw [if_pos hname] at heq
      rw [← heq]
      show (col0.vals.set r v).length = _
      rw [List.length_set]
      exact hlen col0 hcol0
    · rw [if_neg hname] at heq
      rw [← heq]
      exact hlen col0 hcol0
  · have hsame : (df.setCell c r v).columns.map Column.name =
        df.columns.map Column.name := by
      unfold DataFrame.setCell
      simp only [List.map_map]
      apply List.map_congr_left
      intro col _
      by_cases h : col.name = c <;> simp [h]
    rw [show (df.setCell c r v).columns.map Column.name =
        df.columns.map Column.name from hsame]
    exact hnodup

theorem castValAs_na (d : Dtype) : castValAs d Val.na = .ok Val.na := by
  cases d <;> rfl

theorem castValAs_idem (d : Dtype) (v w : Val)
    (h : castValAs d v = .ok w) : castValAs d w = .ok w := by
  cases d with
  | object =>
    unfold castValAs at h ⊢
    cases h
    rfl
  | numeric =>
    cases v with
    | na =>
      unfold castValAs at h
      cases h
      rfl
    | vint n =>
      unfold castValAs at h
      cases h
      rfl
    | vstr s =>
      have h' : (match pyParseInt (pystrip s) with
          | some n => Except.ok (Val.vint n)
          | none => (Except.error ("could not convert string to numeric: " ++ s) :
              Except String Val)) = Except.ok w := h
      cases hp : pyParseInt (pystrip s) with
      | none => rw [hp] at h'; cases h'
      | some n =>
        rw [hp] at h'
        cases h'
        rfl

theorem castValAs_isna (d : Dtype) (v w : Val)
    (h : castValAs d v = .ok w) : w.isna = v.isna := by
  cases d with
  | object =>
    unfold castValAs at h
    cases h
    rfl
  | numeric =>
    cases v with
    | na => unfold castValAs at h; cases h; rfl
    | vint n => unfold castValAs at h; cases h; rfl
    | vstr s =>
      have h' : (match pyParseInt (pystrip s) with
          | some n => Except.ok (Val.vint n)
          | none => (Except.error ("could not convert string to numeric: " ++ s) :
              Except String Val)) = Except.ok w := h
      cases hp : pyParseInt (pystrip s) with
      | none => rw [hp] at h'; cases h'
      | some n => rw [hp] at h'; cases h'; rfl

theorem astypeColumn_ok_other (df : DataFrame) (c : String) (d : Dtype)
    (df' : DataFrame) (h : astypeColumn df c d = .ok df')
    (c' : String) (hc : c' ≠ c) (r : Nat) :
    df'.cell c' r = df.cell c' r := by
  unfold astypeColumn at h
  cases hcol : df.getCol c with
  | none =>
    rw [hcol] at h
    cases h
    rfl
  | some col =>
    rw [hcol] at h
    replace h : (match exceptMapList (castValAs d) col.vals with
      | Except.error e => (Except.error e : Except String DataFrame)
      | Except.ok vs => Except.ok (df.setColumn c d vs)) = Except.ok df' := h
    cases hm : exceptMapList (castValAs d) col.vals with
    | error e => rw [hm] at h; cases h
    | ok vs =>
      rw [hm] at h
      cases h
      unfold DataFrame.cell
      rw [getCol_setColumn]
      cases hcol' : df.getCol c' with
      | none => rfl
      | some col' =>
        have hne : ¬ col'.name = c := by
          rw [getCol_name df c' col' hcol']
          exact hc
        show (if col'.name = c then
            { col' with dtype := d, vals := vs } else col').vals.getD r Val.na =
          col'.vals.getD r Val.na
        rw [if_neg hne]

theorem astypeColumn_ok_cast (df : DataFrame) (c : String) (d : Dtype)
    (df' : DataFrame) (h : astypeColumn df c d = .ok df') (r : Nat) :
    castValAs d (df.cell c r) = .ok (df'.cell c r) := by
  unfold astypeColumn at h
  cases hcol : df.getCol c with
  | none =>
    rw [hcol] at h
    cases h
    unfold DataFrame.cell
    rw [hcol]
    exact castValAs_na d
  | some col =>
    rw [hcol] at h
    replace h : (match exceptMapList (castValAs d) col.vals with
      | Except.error e => (Except.error e : Except String DataFrame)
      | Except.ok vs => Except.ok (df.setColumn c d vs)) = Except.ok df' := h
    cases hm : exceptMapList (castValAs d) col.vals with
    | error e => rw [hm] at h; cases h
    | ok vs =>
      rw [hm] at h
      cases h
      obtain ⟨hlen, hpt⟩ := exceptMapList_ok (castValAs d) col.vals vs hm
      have hcell' : (df.setColumn c d vs).cell c r = vs.getD r Val.na := by
        unfold DataFrame.cell
        rw [getCol_setColumn, hcol]
        show (if col.name = c then
            { col with dtype := d, vals := vs } else col).vals.getD r Val.na =
          vs.getD r Val.na
        rw [if_pos (getCol_name df c col hcol)]
      rw [hcell']
      have hcell : df.cell c r = col.vals.getD r Val.na := by
        unfold DataFrame.cell
        rw [hcol]
      rw [hcell]
      by_cases hr : r < col.vals.length
      · exact hpt r hr Val.na Val.na
      · rw [List.getD_eq_default _ _ (by omega),
          List.getD_eq_default _ _ (by omega)]
        exact castValAs_na d

theorem astypeColumn_colNames (df : DataFrame) (c : String) (d : Dtype)
    (df' : DataFrame) (h : astypeColumn df c d = .ok df') :
    df'.colNames = df.colNames := by
  unfold astypeColumn at h
  cases hcol : df.getCol c with
  | none => rw [hcol] at h; cases h; rfl
  | some col =>
    rw [hcol] at h
    replace h : (match exceptMapList (castValAs d) col.vals with
      | Except.error e => (Except.error e : Except String DataFrame)
      | Except.ok vs => Except.ok (df.setColumn c d vs)) = Except.ok df' := h
    cases hm : exceptMapList (castValAs d) col.vals with
    | error e => rw [hm] at h; cases h
    | ok vs =>
      rw [hm] at h
      cases h
      unfold DataFrame.setColumn DataFrame.colNames
      simp only [List.map_map]
      apply List.map_congr_left
      intro col0 _
      by_cases hn : col0.name = c <;> simp [hn]

theorem astypeColumn_nrows (df : DataFrame) (c : String) (d : Dtype)
    (df' : DataFrame) (h : astypeColumn df c d = .ok df') :
    df'.nrows = df.nrows := by
  unfold astypeColumn at h
  cases hcol : df.getCol c with
  | none => rw [hcol] at h; cases h; rfl
  | some col =>
    rw [hcol] at h
    replace h : (match exceptMapList (castValAs d) col.vals with
      | Except.error e => (Except.error e : Except String DataFrame)
      | Except.ok vs => Except.ok (df.setColumn c d vs)) = Except.ok df' := h
    cases hm : exceptMapList (castValAs d) col.vals with
    | error e => rw [hm] at h; cases h
    | ok vs =>
      rw [hm] at h
      cases h
      rfl

theorem astypeColumn_WF (df : DataFrame) (c : String) (d : Dtype)
    (df' : DataFrame) (h : astypeColumn df c d = .ok df') (hwf : df.WF) :
    df'.WF := by
  unfold astypeColumn at h
  cases hcol : df.getCol c with
  | none => rw [hcol] at h; cases h; exact hwf
  | some col =>
    rw [hcol] at h
    replace h : (match exceptMapList (castValAs d) col.vals with
      | Except.error e => (Except.error e : Except String DataFrame)
      | Except.ok vs => Except.ok (df.setColumn c d vs)) = Except.ok df' := h
    cases hm : exceptMapList (castValAs d) col.vals with
    | error e => rw [hm] at h; cases h
    | ok vs =>
      rw [hm] at h
      cases h
      obtain ⟨hlen0, hpt⟩ := exceptMapList_ok (castValAs d) col.vals vs hm
      obtain ⟨hlen, hnodup⟩ := hwf
      have hcolmem : col ∈ df.columns := by
        unfold DataFrame.getCol at hcol
        exact List.mem_of_find?_eq_some hcol
      constructor
      · intro col0 hcol0
        unfold DataFrame.setColumn at hcol0
        simp only [List.mem_map] at hcol0
        obtain ⟨col1, hcol1, heq⟩ := hcol0
        by_cases hn : col1.name = c
        · rw [if_pos hn] at heq
          rw [← heq]
          show vs.length = _
          rw [hlen0]
          exact hlen col hcolmem
        · rw [if_neg hn] at heq
          rw [← heq]
          exact hlen col1 hcol1
      · have hsame : (df.setColumn c d vs).columns.map Column.name =
            df.columns.map Column.name := by
          unfold DataFrame.setColumn
          simp only [List.map_map]
          apply List.map_congr_left
          intro col0 _
          by_cases hn : col0.name = c <;> simp [hn]
        rw [show (df.setColumn c d vs).columns.map Column.name =
            df.columns.map Column.name from hsame]
        exact hnodup

/-! ## Column-group discovery lemmas -/

theorem mem_getLanguageColumns (df : DataFrame) (base sep : String)
    (l c : String) :
    (l, c) ∈ getLanguageColumns df base sep ↔
      c ∈ df.colNames ∧ baseLangOf sep c = some (base, l) := by
  unfold getLanguageColumns
  rw [List.mem_filterMap]
  constructor
  · rintro ⟨c', hc', hf⟩
    cases hb : baseLangOf sep c' with
    | none => rw [hb] at hf; cases hf
    | some p =>
      obtain ⟨b', l'⟩ := p
      rw [hb] at hf
      replace hf : (if b' = base then some (l', c') else none) = some (l, c) := hf
      by_cases hbb : b' = base
      · rw [if_pos hbb] at hf
        have h1 : l' = l ∧ c' = c := by
          have := hf
          simp only [Option.some.injEq, Prod.mk.injEq] at this
          exact this
        obtain ⟨hl, hc⟩ := h1
        subst hl
        subst hc
        subst hbb
        exact ⟨hc', hb⟩
      · rw [if_neg hbb] at hf
        cases hf
  · rintro ⟨hcm, hb⟩
    refine ⟨c, hcm, ?_⟩
    rw [hb]
    simp

theorem lookupLang_mem (lcs : List (String × String)) (l : String)
    (c : String) (h : lookupLang lcs l = some c) : (l, c) ∈ lcs := by
  unfold lookupLang at h
  cases hf : lcs.find? (fun p => p.1 == l) with
  | none => rw [hf] at h; cases h
  | some p =>
    rw [hf] at h
    replace h : some p.2 = some c := h
    have hc : p.2 = c := by
      injection h
    have hmem := List.mem_of_find?_eq_some hf
    have hl := List.find?_some hf
    have hl' : p.1 = l := by simpa using hl
    obtain ⟨p1, p2⟩ := p
    simp only at hc hl'
    subst hc
    subst hl'
    exact hmem

theorem sourceColFor_mem (df : DataFrame) (sep source base scol : String)
    (h : sourceColFor df sep source base = some scol) :
    scol ∈ df.colNames ∧ baseLangOf sep scol = some (base, source) := by
  unfold sourceColFor at h
  exact (mem_getLanguageColumns df base sep source scol).mp (lookupLang_mem _ _ _ h)

theorem mem_getBaseColumns (cols : List String) (sep : String) (b : String) :
    b ∈ getBaseColumns cols sep ↔
      ∃ c ∈ cols, ∃ l, baseLangOf sep c = some (b, l) := by
  unfold getBaseColumns
  rw [List.mem_dedup, List.mem_filterMap]
  constructor
  · rintro ⟨c, hc, hf⟩
    cases hb : baseLangOf sep c with
    | none => rw [hb] at hf; cases hf
    | some p =>
      obtain ⟨b', l⟩ := p
      rw [hb] at hf
      replace hf : some b' = some b := hf
      have hbb : b' = b := by injection hf
      subst hbb
      exact ⟨c, hc, l, hb⟩
  · rintro ⟨c, hc, l, hb⟩
    refine ⟨c, hc, ?_⟩
    rw [hb]
    rfl

/-! ## Astype phase characterization -/

theorem astypeLangs_shape (source : String) (d : Dtype) :
    ∀ (lcs : List (String × String)) (acc acc' : DataFrame),
      astypeLangs source d lcs acc = .ok acc' →
      acc'.colNames = acc.colNames ∧ acc'.nrows = acc.nrows ∧
        (acc.WF → acc'.WF) := by
  intro lcs
  induction lcs with
  | nil =>
    intro acc acc' h
    cases h
    exact ⟨rfl, rfl, id⟩
  | cons p rest ih =>
    obtain ⟨l₀, c₀⟩ := p
    intro acc acc' h
    unfold astypeLangs at h
    by_cases hsrc : l₀ = source
    · rw [if_pos hsrc] at h
      exact ih acc acc' h
    · rw [if_neg hsrc] at h
      cases hcast : astypeColumn acc c₀ d with
      | error e => rw [hcast] at h; cases h
      | ok acc₁ =>
        rw [hcast] at h
        obtain ⟨h1, h2, h3⟩ := ih acc₁ acc' h
        exact ⟨h1.trans (astypeColumn_colNames acc c₀ d acc₁ hcast),
          h2.trans (astypeColumn_nrows acc c₀ d acc₁ hcast),
          fun hwf => h3 (astypeColumn_WF acc c₀ d acc₁ hcast hwf)⟩

theorem astypeLangs_cells (source : String) (d : Dtype) :
    ∀ (lcs : List (String × String)) (acc acc' : DataFrame),
      astypeLangs source d lcs acc = .ok acc' →
      ∀ c' r,
        ((∀ l, (l, c') ∈ lcs → l = source) → acc'.cell c' r = acc.cell c' r) ∧
        ((∃ l, (l, c') ∈ lcs ∧ l ≠ source) →
          castValAs d (acc.cell c' r) = .ok (acc'.cell c' r)) := by
  intro lcs
  induction lcs with
  | nil =>
    intro acc acc' h c' r
    cases h
    refine ⟨fun _ => rfl, ?_⟩
    rintro ⟨l, hl, -⟩
    exact absurd hl (List.not_mem_nil _)
  | cons p rest ih =>
    obtain ⟨l₀, c₀⟩ := p
    intro acc acc' h c' r
    unfold astypeLangs at h
    by_cases hsrc : l₀ = source
    · rw [if_pos hsrc] at h
      constructor
      · intro hall
        exact (ih acc acc' h c' r).1 (fun l hl => hall l (List.mem_cons_of_mem _ hl))
      · rintro ⟨l, hl, hlne⟩
        rcases List.mem_cons.mp hl with hhead | htail
        · rw [Prod.mk.injEq] at hhead
          exact absurd (hhead.1.trans hsrc) hlne
        · exact (ih acc acc' h c' r).2 ⟨l, htail, hlne⟩
    · rw [if_neg hsrc] at h
      cases hcast : astypeColumn acc c₀ d with
      | error e => rw [hcast] at h; cases h
      | ok acc₁ =>
        rw [hcast] at h
        constructor
        · intro hall
          have hne : c' ≠ c₀ := by
            intro hcc
            exact hsrc (hall l₀ (by rw [hcc]; exact List.mem_cons_self _ _))
          have h1 : acc₁.cell c' r = acc.cell c' r :=
            astypeColumn_ok_other acc c₀ d acc₁ hcast c' hne r
          rw [(ih acc₁ acc' h c' r).1
            (fun l hl => hall l (List.mem_cons_of_mem _ hl)), h1]
        · rintro ⟨l, hl, hlne⟩
          rcases List.mem_cons.mp hl with hhead | htail
          · rw [Prod.mk.injEq] at hhead
            obtain ⟨hl₀, hc₀⟩ := hhead
            subst hc₀
            have hstep : castValAs d (acc.cell c' r) = .ok (acc₁.cell c' r) :=
              astypeColumn_ok_cast acc c' d acc₁ hcast r
            by_cases hrest : ∃ l', (l', c') ∈ rest ∧ l' ≠ source
            · have h2 := (ih acc₁ acc' h c' r).2 hrest
              have hidem := castValAs_idem d _ _ hstep
              have heq : acc₁.cell c' r = acc'.cell c' r := by
                have hcomp := hidem.symm.trans h2
                injection hcomp
              rw [← heq]
              exact hstep
            · push_neg at hrest
              have h1 := (ih acc₁ acc' h c' r).1 hrest
              rw [h1]
              exact hstep
          · by_cases hcc : c' = c₀
            · subst hcc
              have hstep : castValAs d (acc.cell c' r) = .ok (acc₁.cell c' r) :=
                astypeColumn_ok_cast acc c' d acc₁ hcast r
              have h2 := (ih acc₁ acc' h c' r).2 ⟨l, htail, hlne⟩
              have hidem := castValAs_idem d _ _ hstep
              have heq : acc₁.cell c' r = acc'.cell c' r := by
                have hcomp := hidem.symm.trans h2
                injection hcomp
              rw [← heq]
              exact hstep
            · have h1 : acc₁.cell c' r = acc.cell c' r :=
                astypeColumn_ok_other acc c₀ d acc₁ hcast c' hcc r
              have h2 := (ih acc₁ acc' h c' r).2 ⟨l, htail, hlne⟩
              rw [h1] at h2
              exact h2

theorem astypeAction_intro (cfg : EngineCfg) (df : DataFrame)
    (bases : List String) (c' b l scol : String)
    (hb : baseLangOf cfg.fieldLangSeparator c' = some (b, l))
    (hls : l ≠ cfg.sourceLang) (hbm : b ∈ bases)
    (hsc : sourceColFor df cfg.fieldLangSeparator cfg.sourceLang b = some scol)
    (hcm : c' ∈ df.colNames) :
    astypeAction cfg df bases c' = some (df.dtypeOf scol) := by
  unfold astypeAction
  rw [hb]
  show (if l = cfg.sourceLang then none else _) = _
  rw [if_neg hls, if_pos hbm, hsc]
  show (if c' ∈ df.colNames then some (df.dtypeOf scol) else none) = _
  rw [if_pos hcm]

theorem astypeAction_elim (cfg : EngineCfg) (df : DataFrame)
    (bases : List String) (c' : String) (d' : Dtype)
    (h : astypeAction cfg df bases c' = some d') :
    ∃ b l scol, baseLangOf cfg.fieldLangSeparator c' = some (b, l) ∧
      l ≠ cfg.sourceLang ∧ b ∈ bases ∧
      sourceColFor df cfg.fieldLangSeparator cfg.sourceLang b = some scol ∧
      c' ∈ df.colNames ∧ d' = df.dtypeOf scol := by
  unfold astypeAction at h
  cases hb : baseLangOf cfg.fieldLangSeparator c' with
  | none => rw [hb] at h; cases h
  | some p =>
    obtain ⟨b, l⟩ := p
    rw [hb] at h
    replace h : (if l = cfg.sourceLang then none
      else if b ∈ bases then
        match sourceColFor df cfg.fieldLangSeparator cfg.sourceLang b with
        | none => none
        | some scol => if c' ∈ df.colNames then some (df.dtypeOf scol) else none
      else none) = some d' := h
    by_cases hls : l = cfg.sourceLang
    · rw [if_pos hls] at h; cases h
    · rw [if_neg hls] at h
      by_cases hbm : b ∈ bases
      · rw [if_pos hbm] at h
        cases hsc : sourceColFor df cfg.fieldLangSeparator cfg.sourceLang b with
        | none => rw [hsc] at h; cases h
        | some scol =>
          rw [hsc] at h
          replace h : (if c' ∈ df.colNames then
              some (df.dtypeOf scol) else none) = some d' := h
          by_cases hcm : c' ∈ df.colNames
          · rw [if_pos hcm] at h
            have hd : df.dtypeOf scol = d' := by injection h
            exact ⟨b, l, scol, rfl, hls, hbm, hsc, hcm, hd.symm⟩
          · rw [if_neg hcm] at h; cases h
      · rw [if_neg hbm] at h; cases h

theorem astypeAction_not_mem (cfg : EngineCfg) (df : DataFrame)
    (bases : List String) (c' b l : String)
    (hb : baseLangOf cfg.fieldLangSeparator c' = some (b, l))
    (hbm : b ∉ bases) :
    astypeAction cfg df bases c' = none := by
  cases hr : astypeAction cfg df bases c' with
  | none => rfl
  | some d' =>
    obtain ⟨b2, l2, scol, hb2, hls2, hbm2, -, -, -⟩ :=
      astypeAction_elim cfg df bases c' d' hr
    rw [hb] at hb2
    have hbb : b = b2 ∧ l = l2 := by
      simp only [Option.some.injEq, Prod.mk.injEq] at hb2
      exact hb2
    exact absurd (hbb.1 ▸ hbm2) hbm

theorem astypeAction_nil (cfg : EngineCfg) (df : DataFrame) (c' : String) :
    astypeAction cfg df [] c' = none := by
  cases hr : astypeAction cfg df [] c' with
  | none => rfl
  | some d' =>
    obtain ⟨b, l, scol, -, -, hbm, -, -, -⟩ :=
      astypeAction_elim cfg df [] c' d' hr
    exact absurd hbm (List.not_mem_nil b)

theorem astypeAction_none_tail (cfg : EngineCfg) (df : DataFrame)
    (b₀ : String) (rest : List String) (c' : String)
    (h : astypeAction cfg df (b₀ :: rest) c' = none) :
    astypeAction cfg df rest c' = none := by
  cases hr : astypeAction cfg df rest c' with
  | none => rfl
  | some d' =>
    obtain ⟨b, l, scol, hb, hls, hbm, hsc, hcm, hd⟩ :=
      astypeAction_elim cfg df rest c' d' hr
    rw [astypeAction_intro cfg df (b₀ :: rest) c' b l scol hb hls
      (List.mem_cons_of_mem _ hbm) hsc hcm] at h
    cases h

theorem astypeBases_shape (cfg : EngineCfg) (df : DataFrame) :
    ∀ (bases : List String) (acc acc' : DataFrame),
      astypeBases cfg df bases acc = .ok acc' →
      acc'.colNames = acc.colNames ∧ acc'.nrows = acc.nrows ∧
        (acc.WF → acc'.WF) := by
  intro bases
  induction bases with
  | nil =>
    intro acc acc' h
    cases h
    exact ⟨rfl, rfl, id⟩
  | cons b₀ rest ih =>
    intro acc acc' h
    simp only [astypeBases] at h
    cases hsc : lookupLang (getLanguageColumns df b₀ cfg.fieldLangSeparator)
        cfg.sourceLang with
    | none =>
      rw [hsc] at h
      exact ih acc acc' h
    | some scol =>
      rw [hsc] at h
      replace h : (match astypeLangs cfg.sourceLang (df.dtypeOf scol)
          (getLanguageColumns df b₀ cfg.fieldLangSeparator) acc with
        | Except.error e => (Except.error e : Except String DataFrame)
        | Except.ok acc1 => astypeBases cfg df rest acc1) = Except.ok acc' := h
      cases hal : astypeLangs cfg.sourceLang (df.dtypeOf scol)
          (getLanguageColumns df b₀ cfg.fieldLangSeparator) acc with
      | error e => rw [hal] at h; cases h
      | ok acc₁ =>
        rw [hal] at h
        obtain ⟨h1, h2, h3⟩ := ih acc₁ acc' h
        obtain ⟨g1, g2, g3⟩ := astypeLangs_shape cfg.sourceLang
          (df.dtypeOf scol) _ acc acc₁ hal
        exact ⟨h1.trans g1, h2.trans g2, fun hwf => h3 (g3 hwf)⟩

theorem astypeBases_cells (cfg : EngineCfg) (df : DataFrame) :
    ∀ (bases : List String) (acc acc' : DataFrame),
      astypeBases cfg df bases acc = .ok acc' →
      ∀ c' r,
        (astypeAction cfg df bases c' = none →
          acc'.cell c' r = acc.cell c' r) ∧
        (∀ d', astypeAction cfg df bases c' = some d' →
          castValAs d' (acc.cell c' r) = .ok (acc'.cell c' r)) := by
  intro bases
  induction bases with
  | nil =>
    intro acc acc' h c' r
    cases h
    refine ⟨fun _ => rfl, fun d' hd => ?_⟩
    rw [astypeAction_nil] at hd
    cases hd
  | cons b₀ rest ih =>
    intro acc acc' h c' r
    simp only [astypeBases] at h
    cases hsc : lookupLang (getLanguageColumns df b₀ cfg.fieldLangSeparator)
        cfg.sourceLang with
    | none =>
      rw [hsc] at h
      constructor
      · intro hnone
        exact (ih acc acc' h c' r).1 (astypeAction_none_tail cfg df b₀ rest c' hnone)
      · intro d' hsome
        obtain ⟨b, l, scol, hb, hls, hbm, hscb, hcm, hd⟩ :=
          astypeAction_elim cfg df (b₀ :: rest) c' d' hsome
        have hbr : b ∈ rest := by
          rcases List.mem_cons.mp hbm with hbb | hbr
          · subst hbb
            have hsc2 : sourceColFor df cfg.fieldLangSeparator
                cfg.sourceLang b = none := hsc
            rw [hscb] at hsc2
            cases hsc2
          · exact hbr
        exact (ih acc acc' h c' r).2 d'
          (hd ▸ astypeAction_intro cfg df rest c' b l scol hb hls hbr hscb hcm)
    | some scol =>
      rw [hsc] at h
      replace h : (match astypeLangs cfg.sourceLang (df.dtypeOf scol)
          (getLanguageColumns df b₀ cfg.fieldLangSeparator) acc with
        | Except.error e => (Except.error e : Except String DataFrame)
        | Except.ok acc1 => astypeBases cfg df rest acc1) = Except.ok acc' := h
      cases hal : astypeLangs cfg.sourceLang (df.dtypeOf scol)
          (getLanguageColumns df b₀ cfg.fieldLangSeparator) acc with
      | error e => rw [hal] at h; cases h
      | ok acc₁ =>
        rw [hal] at h
        constructor
        · intro hnone
          have hall : ∀ l, (l, c') ∈
              getLanguageColumns df b₀ cfg.fieldLangSeparator →
              l = cfg.sourceLang := by
            intro l hl
            by_contra hlne
            obtain ⟨hcm, hb⟩ := (mem_getLanguageColumns df b₀
              cfg.fieldLangSeparator l c').mp hl
            rw [astypeAction_intro cfg df (b₀ :: rest) c' b₀ l scol hb hlne
              (List.mem_cons_self _ _) hsc hcm] at hnone
            cases hnone
          have h1 : acc₁.cell c' r = acc.cell c' r :=
            (astypeLangs_cells cfg.sourceLang (df.dtypeOf scol) _ acc acc₁
              hal c' r).1 hall
          rw [(ih acc₁ acc' h c' r).1
            (astypeAction_none_tail cfg df b₀ rest c' hnone), h1]
        · intro d' hsome
          obtain ⟨b, l, scolb, hb, hls, hbm, hscb, hcm, hd⟩ :=
            astypeAction_elim cfg df (b₀ :: rest) c' d' hsome
          by_cases hbb : b = b₀
          · subst hbb
            have hscolb : scolb = scol := by
              have hsc2 : sourceColFor df cfg.fieldLangSeparator
                  cfg.sourceLang b = some scol := hsc
              rw [hscb] at hsc2
              injection hsc2
            rw [hscolb] at hscb hd
            have hmem : (l, c') ∈
                getLanguageColumns df b cfg.fieldLangSeparator :=
              (mem_getLanguageColumns df b cfg.fieldLangSeparator l c').mpr
                ⟨hcm, hb⟩
            have hstep : castValAs (df.dtypeOf scol) (acc.cell c' r) =
                .ok (acc₁.cell c' r) :=
              (astypeLangs_cells cfg.sourceLang (df.dtypeOf scol) _ acc acc₁
                hal c' r).2 ⟨l, hmem, hls⟩
            rw [hd]
            by_cases hbr : b ∈ rest
            · have h2 := (ih acc₁ acc' h c' r).2 (df.dtypeOf scol)
                (astypeAction_intro cfg df rest c' b l scol hb hls hbr hscb hcm)
              have hidem := castValAs_idem _ _ _ hstep
              have heq : acc₁.cell c' r = acc'.cell c' r := by
                have hcomp := hidem.symm.trans h2
                injection hcomp
              rw [← heq]
              exact hstep
            · have h1 := (ih acc₁ acc' h c' r).1
                (astypeAction_not_mem cfg df rest c' b l hb hbr)
              rw [h1]
              exact hstep
          · have hbr : b ∈ rest := by
              rcases List.mem_cons.mp hbm with hx | hx
              · exact absurd hx hbb
              · exact hx
            have hall : ∀ l', (l', c') ∈
                getLanguageColumns df b₀ cfg.fieldLangSeparator →
                l' = cfg.sourceLang := by
              intro l' hl'
              obtain ⟨-, hb'⟩ := (mem_getLanguageColumns df b₀
                cfg.fieldLangSeparator l' c').mp hl'
              rw [hb'] at hb
              have : b₀ = b ∧ l' = l := by
                simp only [Option.some.injEq, Prod.mk.injEq] at hb
                exact hb
              exact absurd this.1.symm hbb
            have h1 : acc₁.cell c' r = acc.cell c' r :=
              (astypeLangs_cells cfg.sourceLang (df.dtypeOf scol) _ acc acc₁
                hal c' r).1 hall
            have h2 := (ih acc₁ acc' h c' r).2 d'
              (hd ▸ astypeAction_intro cfg df rest c' b l scolb hb hls hbr
                hscb hcm)
            rw [h1] at h2
            exact h2

/-! ## Translation-loop helper lemmas -/

theorem getCol_of_mem_colNames (df : DataFrame) (c : String)
    (h : c ∈ df.colNames) : ∃ col, df.getCol c = some col := by
  unfold DataFrame.colNames at h
  rw [List.mem_map] at h
  obtain ⟨col, hcol, hname⟩ := h
  unfold DataFrame.getCol
  have : ∃ col ∈ df.columns, (col.name == c) = true :=
    ⟨col, hcol, by simp [hname]⟩
  rw [← List.find?_isSome] at this
  cases hf : df.columns.find? (fun col => col.name == c) with
  | none => rw [hf] at this; cases this
  | some col' => exact ⟨col', rfl⟩

theorem mem_eligibleRows (df : DataFrame) (tcol scol : String) (r : Nat) :
    r ∈ eligibleRows df tcol scol ↔
      r < df.nrows ∧ (df.cell tcol r).isna = true ∧
        (df.cell scol r).notna = true := by
  unfold eligibleRows
  rw [List.mem_filter, List.mem_range]
  constructor
  · rintro ⟨h1, h2⟩
    rw [Bool.and_eq_true] at h2
    exact ⟨h1, h2.1, h2.2⟩
  · rintro ⟨h1, h2, h3⟩
    exact ⟨h1, by rw [Bool.and_eq_true]; exact ⟨h2, h3⟩⟩

theorem eligibleRows_nodup (df : DataFrame) (tcol scol : String) :
    (eligibleRows df tcol scol).Nodup :=
  (List.nodup_range _).filter _

theorem setAllElements_trimmed (df : DataFrame) (scol : String)
    (rows : List Nat) (sep : String) :
    ∀ k ∈ setAllElements df scol rows sep, pystrip k = k := by
  intro k hk
  unfold setAllElements at hk
  rw [List.mem_flatten] at hk
  obtain ⟨l, hl, hkl⟩ := hk
  rw [List.mem_map] at hl
  obtain ⟨r, hr, hlr⟩ := hl
  by_cases ht : pyTruthy (df.cell scol r) = true
  · rw [if_pos ht] at hlr
    rw [← hlr] at hkl
    rw [List.mem_map] at hkl
    obtain ⟨e, he, hek⟩ := hkl
    rw [← hek]
    exact pystrip_idem e
  · rw [if_neg ht] at hlr
    rw [← hlr] at hkl
    cases hkl

theorem exceptMapList_ok_eq_map (f : α → Except ε β) (g : α → β)
    (l : List α) (out : List β) (h : exceptMapList f l = .ok out)
    (hdet : ∀ e ∈ l, ∀ y, f e = .ok y → y = g e) : out = l.map g := by
  induction l generalizing out with
  | nil =>
    unfold exceptMapList at h
    cases h
    rfl
  | cons x xs ih =>
    unfold exceptMapList at h
    cases hf : f x with
    | error e => rw [hf] at h; cases h
    | ok y =>
      rw [hf] at h
      cases hrest : exceptMapList f xs with
      | error e => rw [hrest] at h; cases h
      | ok ys =>
        rw [hrest] at h
        cases h
        rw [List.map_cons]
        rw [hdet x (List.mem_cons_self _ _) y hf,
          ih ys hrest (fun e he => hdet e (List.mem_cons_of_mem _ he))]

theorem setRowWrittenE_ok (tr : Val → Except String String) (sep : String)
    (elems : List String) (cellVal : Val) (w : String)
    (hall : ∀ k ∈ elems, pystrip k = k)
    (h : setRowWrittenE tr sep elems cellVal = .ok w) :
    w = setCellSpec tr sep cellVal := by
  unfold setRowWrittenE at h
  cases hm : exceptMapList (fun e =>
      match pyIndex elems (pystrip e) with
      | some i => Except.ok (pyStr
          ((translateValues tr (elems.map Val.vstr)).getD i (Val.vstr "")))
      | none => Except.error "ValueError: element not in list")
    (pySplit sep (pyStr cellVal)) with
  | error e => rw [hm] at h; cases h
  | ok parts =>
    rw [hm] at h
    have hw : String.intercalate sep parts = w := by injection h
    have hparts : parts = (pySplit sep (pyStr cellVal)).map
        (fun e => elemTrStr tr (pystrip e)) := by
      apply exceptMapList_ok_eq_map _ _ _ _ hm
      intro e he y hy
      cases hidx : pyIndex elems (pystrip e) with
      | none => rw [hidx] at hy; cases hy
      | some i =>
        rw [hidx] at hy
        obtain ⟨hilt, hival⟩ := pyIndex_some elems (pystrip e) i hidx
        have htv := translateValues_elems tr elems hall i hilt (Val.vstr "")
          (pystrip e) hival
        replace hy : some (pyStr
            ((translateValues tr (elems.map Val.vstr)).getD i (Val.vstr ""))) =
            some y := by
          injection hy with hy1
          rw [hy1]
        have hy2 : pyStr
            ((translateValues tr (elems.map Val.vstr)).getD i (Val.vstr "")) =
            y := by injection hy
        rw [← hy2, htv]
        rfl
    rw [← hw, hparts]
    rfl

theorem pushSnap_df (cb : Bool) (st : TState) : (pushSnap cb st).df = st.df := by
  unfold pushSnap
  split <;> rfl

theorem pushSnap_transCount (cb : Bool) (st : TState) :
    (pushSnap cb st).transCount = st.transCount := by
  unfold pushSnap
  split <;> rfl

theorem pushSnap_castWarnings (cb : Bool) (st : TState) :
    (pushSnap cb st).castWarnings = st.castWarnings := by
  unfold pushSnap
  split <;> rfl

theorem regRowsLoop_char (tr : Val → Except String String) (cb : Bool)
    (df : DataFrame) (scol tcol : String) (srcDtype : Dtype) :
    ∀ (rows : List Nat) (st st' : TState),
      regRowsLoop tr cb df scol tcol srcDtype rows st = st' →
      st.df.WF → tcol ∈ st.df.colNames → st.df.nrows = df.nrows →
      (∀ r ∈ rows, (df.cell scol r).notna = true ∧ r < df.nrows) →
      rows.Nodup →
      st'.df.WF ∧ st'.df.colNames = st.df.colNames ∧
      st'.df.nrows = st.df.nrows ∧
      st'.transCount = st.transCount + rows.length ∧
      st'.castWarnings = st.castWarnings + (rows.filter
        (fun r => regCastWarns tr srcDtype (df.cell scol r))).length ∧
      (∀ c' r', c' ≠ tcol → st'.df.cell c' r' = st.df.cell c' r') ∧
      (∀ r', r' ∉ rows → st'.df.cell tcol r' = st.df.cell tcol r') ∧
      (∀ r' ∈ rows, st'.df.cell tcol r' =
        regWrittenVal tr srcDtype (df.cell scol r')) := by
  intro rows
  induction rows with
  | nil =>
    intro st st' hrun hwf hm hnr hall hnd
    have h0 : regRowsLoop tr cb df scol tcol srcDtype [] st = st := rfl
    rw [h0] at hrun
    subst hrun
    refine ⟨hwf, rfl, rfl, by simp, by simp, fun _ _ _ => rfl,
      fun _ _ => rfl, ?_⟩
    intro r' hr'
    exact absurd hr' (List.not_mem_nil _)
  | cons r rest ih =>
    intro st st' hrun hwf hm hnr hall hnd
    have hv : (df.cell scol r).notna = true := (hall r (List.mem_cons_self _ _)).1
    have hrlt : r < df.nrows := (hall r (List.mem_cons_self _ _)).2
    have hstep : regRowsLoop tr cb df scol tcol srcDtype (r :: rest) st =
        regRowsLoop tr cb df scol tcol srcDtype rest
          (pushSnap cb
            { df := st.df.setCell tcol r
                (regWrittenVal tr srcDtype (df.cell scol r)),
              transCount := st.transCount + 1,
              castWarnings := st.castWarnings +
                (if regCastWarns tr srcDtype (df.cell scol r) then 1 else 0),
              snaps := st.snaps }) := by
      simp only [regRowsLoop]
      rw [if_pos hv]
    rw [hstep] at hrun
    obtain ⟨col, hcol⟩ := getCol_of_mem_colNames st.df tcol hm
    have hcollen : col.vals.length = st.df.nrows := by
      have hcolmem : col ∈ st.df.columns := by
        unfold DataFrame.getCol at hcol
        exact List.mem_of_find?_eq_some hcol
      exact hwf.1 col hcolmem
    have hwf2 : (st.df.setCell tcol r
        (regWrittenVal tr srcDtype (df.cell scol r))).WF :=
      setCell_WF st.df tcol r _ hwf
    have hm2 : tcol ∈ (st.df.setCell tcol r
        (regWrittenVal tr srcDtype (df.cell scol r))).colNames := by
      rw [setCell_colNames]
      exact hm
    have hnd2 : rest.Nodup := (List.nodup_cons.mp hnd).2
    have hnmem : r ∉ rest := (List.nodup_cons.mp hnd).1
    obtain ⟨g1, g2, g3, g4, g5, g6, g7, g8⟩ := ih _ st' hrun
      (by rw [pushSnap_df]; exact hwf2)
      (by rw [pushSnap_df]; exact hm2)
      (by rw [pushSnap_df, setCell_nrows]; exact hnr)
      (fun r2 h2 => hall r2 (List.mem_cons_of_mem _ h2)) hnd2
    simp only [pushSnap_df, pushSnap_transCount, pushSnap_castWarnings]
      at g2 g3 g4 g5 g6 g7 g8
    refine ⟨g1, ?_, ?_, ?_, ?_, ?_, ?_, ?_⟩
    · rw [g2, setCell_colNames]
    · rw [g3, setCell_nrows]
    · rw [g4]
      simp only [List.length_cons]
      omega
    · rw [g5]
      simp only [List.filter_cons]
      by_cases hp : regCastWarns tr srcDtype (df.cell scol r) = true
      · rw [if_pos hp, if_pos hp]
        simp only [List.length_cons]
        omega
      · rw [if_neg hp, if_neg hp]
        omega
    · intro c' r' hc'
      rw [g6 c' r' hc', cell_setCell_other st.df tcol r _ c' hc' r']
    · intro r' hr'
      have hr1 : r' ∉ rest := fun hx => hr' (List.mem_cons_of_mem _ hx)
      have hr2 : r' ≠ r := fun hx => hr' (hx ▸ List.mem_cons_self _ _)
      rw [g7 r' hr1, cell_setCell_same_col_other_row st.df tcol r _ r' hr2]
    · intro r' hr'
      rcases List.mem_cons.mp hr' with hx | hx
      · subst hx
        rw [g7 r' hnmem]
        exact cell_setCell_self st.df tcol r' _ col hcol (by omega)
      · exact g8 r' hx

theorem setRowsLoop_char (tr : Val → Except String String) (cb : Bool)
    (sep : String) (df : DataFrame) (scol tcol : String)
    (elems : List String) (hall : ∀ k ∈ elems, pystrip k = k) :
    ∀ (rows : List Nat) (st st' : TState),
      setRowsLoop tr cb sep df scol tcol elems rows st = .ok st' →
      st.df.WF → tcol ∈ st.df.colNames → st.df.nrows = df.nrows →
      (∀ r ∈ rows, (df.cell scol r).notna = true ∧ r < df.nrows) →
      rows.Nodup →
      st'.df.WF ∧ st'.df.colNames = st.df.colNames ∧
      st'.df.nrows = st.df.nrows ∧
      st'.transCount = st.transCount ∧
      st'.castWarnings = st.castWarnings ∧
      (∀ c' r', c' ≠ tcol → st'.df.cell c' r' = st.df.cell c' r') ∧
      (∀ r', r' ∉ rows → st'.df.cell tcol r' = st.df.cell tcol r') ∧
      (∀ r' ∈ rows, st'.df.cell tcol r' =
        Val.vstr (setCellSpec tr sep (df.cell scol r'))) := by
  intro rows
  induction rows with
  | nil =>
    intro st st' hrun hwf hm hnr hall2 hnd
    have h0 : setRowsLoop tr cb sep df scol tcol elems [] st = .ok st := rfl
    rw [h0] at hrun
    have hst : st = st' := by injection hrun
    subst hst
    refine ⟨hwf, rfl, rfl, rfl, rfl, fun _ _ _ => rfl, fun _ _ => rfl, ?_⟩
    intro r' hr'
    exact absurd hr' (List.not_mem_nil _)
  | cons r rest ih =>
    intro st st' hrun hwf hm hnr hall2 hnd
    have hv : (df.cell scol r).notna = true :=
      (hall2 r (List.mem_cons_self _ _)).1
    have hrlt : r < df.nrows := (hall2 r (List.mem_cons_self _ _)).2
    have hstep : setRowsLoop tr cb sep df scol tcol elems (r :: rest) st =
        (match setRowWrittenE tr sep elems (df.cell scol r) with
        | .error e => .error e
        | .ok w =>
          setRowsLoop tr cb sep df scol tcol elems rest
            (pushSnap cb { st with
              df := st.df.setCell tcol r (Val.vstr w) })) := by
      simp only [setRowsLoop]
      rw [if_pos hv]
    rw [hstep] at hrun
    cases hw : setRowWrittenE tr sep elems (df.cell scol r) with
    | error e => rw [hw] at hrun; cases hrun
    | ok w =>
      rw [hw] at hrun
      have hwspec : w = setCellSpec tr sep (df.cell scol r) :=
        setRowWrittenE_ok tr sep elems (df.cell scol r) w hall hw
      obtain ⟨col, hcol⟩ := getCol_of_mem_colNames st.df tcol hm
      have hcollen : col.vals.length = st.df.nrows := by
        have hcolmem : col ∈ st.df.columns := by
          unfold DataFrame.getCol at hcol
          exact List.mem_of_find?_eq_some hcol
        exact hwf.1 col hcolmem
      have hnd2 : rest.Nodup := (List.nodup_cons.mp hnd).2
      have hnmem : r ∉ rest := (List.nodup_cons.mp hnd).1
      obtain ⟨g1, g2, g3, g4, g5, g6, g7, g8⟩ := ih _ st' hrun
        (by rw [pushSnap_df]; exact setCell_WF st.df tcol r _ hwf)
        (by rw [pushSnap_df, setCell_colNames]; exact hm)
        (by rw [pushSnap_df, setCell_nrows]; exact hnr)
        (fun r2 h2 => hall2 r2 (List.mem_cons_of_mem _ h2)) hnd2
      simp only [pushSnap_df, pushSnap_transCount, pushSnap_castWarnings]
        at g2 g3 g4 g5 g6 g7 g8
      refine ⟨g1, ?_, ?_, g4, g5, ?_, ?_, ?_⟩
      · rw [g2, setCell_colNames]
      · rw [g3, setCell_nrows]
      · intro c' r' hc'
        rw [g6 c' r' hc', cell_setCell_other st.df tcol r _ c' hc' r']
      · intro r' hr'
        have hr1 : r' ∉ rest := fun hx => hr' (List.mem_cons_of_mem _ hx)
        have hr2 : r' ≠ r := fun hx => hr' (hx ▸ List.mem_cons_self _ _)
        rw [g7 r' hr1, cell_setCell_same_col_other_row st.df tcol r _ r' hr2]
      · intro r' hr'
        rcases List.mem_cons.mp hr' with hx | hx
        · subst hx
          rw [g7 r' hnmem, ← hwspec]
          exact cell_setCell_self st.df tcol r' _ col hcol (by omega)
        · exact g8 r' hx

/-! ## `writeAction` characterization -/

theorem writeAction_intro (cfg : EngineCfg) (df : DataFrame)
    (bases : List String) (c' b l scol : String)
    (hb : baseLangOf cfg.fieldLangSeparator c' = some (b, l))
    (hls : l ≠ cfg.sourceLang) (hbm : b ∈ bases)
    (hsc : sourceColFor df cfg.fieldLangSeparator cfg.sourceLang b = some scol)
    (hcm : c' ∈ df.colNames) :
    writeAction cfg df bases c' = some scol := by
  unfold writeAction
  rw [hb]
  show (if l = cfg.sourceLang then none else _) = _
  rw [if_neg hls, if_pos hbm, hsc]
  show (if c' ∈ df.colNames then some scol else none) = _
  rw [if_pos hcm]

theorem writeAction_elim (cfg : EngineCfg) (df : DataFrame)
    (bases : List String) (c' : String) (scol : String)
    (h : writeAction cfg df bases c' = some scol) :
    ∃ b l, baseLangOf cfg.fieldLangSeparator c' = some (b, l) ∧
      l ≠ cfg.sourceLang ∧ b ∈ bases ∧
      sourceColFor df cfg.fieldLangSeparator cfg.sourceLang b = some scol ∧
      c' ∈ df.colNames := by
  unfold writeAction at h
  cases hb : baseLangOf cfg.fieldLangSeparator c' with
  | none => rw [hb] at h; cases h
  | some p =>
    obtain ⟨b, l⟩ := p
    rw [hb] at h
    replace h : (if l = cfg.sourceLang then none
      else if b ∈ bases then
        match sourceColFor df cfg.fieldLangSeparator cfg.sourceLang b with
        | none => none
        | some scol => if c' ∈ df.colNames then some scol else none
      else none) = some scol := h
    by_cases hls : l = cfg.sourceLang
    · rw [if_pos hls] at h; cases h
    · rw [if_neg hls] at h
      by_cases hbm : b ∈ bases
      · rw [if_pos hbm] at h
        cases hsc : sourceColFor df cfg.fieldLangSeparator cfg.sourceLang b with
        | none => rw [hsc] at h; cases h
        | some sc =>
          rw [hsc] at h
          replace h : (if c' ∈ df.colNames then some sc else none) =
              some scol := h
          by_cases hcm : c' ∈ df.colNames
          · rw [if_pos hcm] at h
            have hd : sc = scol := by injection h
            subst hd
            exact ⟨b, l, rfl, hls, hbm, hsc, hcm⟩
          · rw [if_neg hcm] at h; cases h
      · rw [if_neg hbm] at h; cases h

theorem writeAction_nolang (cfg : EngineCfg) (df : DataFrame)
    (bases : List String) (c' : String)
    (h : baseLangOf cfg.fieldLangSeparator c' = none) :
    writeAction cfg df bases c' = none := by
  unfold writeAction
  rw [h]

theorem writeAction_source (cfg : EngineCfg) (df : DataFrame)
    (bases : List String) (c' b : String)
    (hb : baseLangOf cfg.fieldLangSeparator c' = some (b, cfg.sourceLang)) :
    writeAction cfg df bases c' = none := by
  unfold writeAction
  rw [hb]
  show (if cfg.sourceLang = cfg.sourceLang then none else _) = _
  rw [if_pos rfl]

theorem writeAction_not_mem (cfg : EngineCfg) (df : DataFrame)
    (bases : List String) (c' b l : String)
    (hb : baseLangOf cfg.fieldLangSeparator c' = some (b, l))
    (hbm : b ∉ bases) :
    writeAction cfg df bases c' = none := by
  cases hr : writeAction cfg df bases c' with
  | none => rfl
  | some scol =>
    obtain ⟨b2, l2, hb2, -, hbm2, -, -⟩ := writeAction_elim cfg df bases c' scol hr
    rw [hb] at hb2
    have hbb : b = b2 ∧ l = l2 := by
      simp only [Option.some.injEq, Prod.mk.injEq] at hb2
      exact hb2
    exact absurd (hbb.1 ▸ hbm2) hbm

theorem writeAction_none_tail (cfg : EngineCfg) (df : DataFrame)
    (b₀ : String) (rest : List String) (c' : String)
    (h : writeAction cfg df (b₀ :: rest) c' = none) :
    writeAction cfg df rest c' = none := by
  cases hr : writeAction cfg df rest c' with
  | none => rfl
  | some scol =>
    obtain ⟨b, l, hb, hls, hbm, hsc, hcm⟩ := writeAction_elim cfg df rest c' scol hr
    rw [writeAction_intro cfg df (b₀ :: rest) c' b l scol hb hls
      (List.mem_cons_of_mem _ hbm) hsc hcm] at h
    cases h

theorem astypeAction_nolang (cfg : EngineCfg) (df : DataFrame)
    (bases : List String) (c' : String)
    (h : baseLangOf cfg.fieldLangSeparator c' = none) :
    astypeAction cfg df bases c' = none := by
  unfold astypeAction
  rw [h]

theorem astypeAction_source (cfg : EngineCfg) (df : DataFrame)
    (bases : List String) (c' b : String)
    (hb : baseLangOf cfg.fieldLangSeparator c' = some (b, cfg.sourceLang)) :
    astypeAction cfg df bases c' = none := by
  unfold astypeAction
  rw [hb]
  show (if cfg.sourceLang = cfg.sourceLang then none else _) = _
  rw [if_pos rfl]

/-! ## Congruence and structural facts -/

theorem getLanguageColumns_congr (df₁ df₂ : DataFrame) (base sep : String)
    (h : df₁.colNames = df₂.colNames) :
    getLanguageColumns df₁ base sep = getLanguageColumns df₂ base sep := by
  unfold getLanguageColumns
  rw [h]

theorem sourceColFor_congr (df₁ df₂ : DataFrame) (sep source base : String)
    (h : df₁.colNames = df₂.colNames) :
    sourceColFor df₁ sep source base = sourceColFor df₂ sep source base := by
  unfold sourceColFor
  rw [getLanguageColumns_congr df₁ df₂ base sep h]

theorem setAllElements_congr (df₁ df₂ : DataFrame) (scol : String)
    (rows : List Nat) (sep : String)
    (h : ∀ r ∈ rows, df₁.cell scol r = df₂.cell scol r) :
    setAllElements df₁ scol rows sep = setAllElements df₂ scol rows sep := by
  unfold setAllElements
  congr 1
  apply List.map_congr_left
  intro r hr
  rw [h r hr]

theorem langcols_snd_aux (base sep : String) : ∀ (cols : List String),
    ((cols.filterMap fun c =>
        match baseLangOf sep c with
        | some (b, l) => if b = base then some (l, c) else none
        | none => none).map Prod.snd) =
      cols.filter fun c =>
        match baseLangOf sep c with
        | some (b, _) => b == base
        | none => false := by
  intro cols
  induction cols with
  | nil => rfl
  | cons c cs ih =>
    simp only [List.filterMap_cons, List.filter_cons]
    cases hb : baseLangOf sep c with
    | none => simpa using ih
    | some p =>
      obtain ⟨b, l⟩ := p
      by_cases hbb : b = base
      · simp [hbb, ih]
      · simp [hbb, ih]

theorem getLanguageColumns_snd_nodup (df : DataFrame) (base sep : String)
    (h : df.colNames.Nodup) :
    ((getLanguageColumns df base sep).map Prod.snd).Nodup := by
  show ((df.colNames.filterMap _).map Prod.snd).Nodup
  rw [langcols_snd_aux base sep df.colNames]
  exact h.filter _

theorem regWrittenVal_notna (tr : Val → Except String String) (d : Dtype)
    (v : Val) : (regWrittenVal tr d v).notna = true := by
  obtain ⟨s, hs⟩ := singleTranslated_vstr tr v
  simp only [regWrittenVal]
  rw [hs]
  by_cases hd : d = Dtype.numeric
  · rw [if_pos hd]
    show (match pyParseInt (pystrip s) with
      | some n => Val.vint n
      | none => Val.vstr s).notna = true
    cases hp : pyParseInt (pystrip s) with
    | none => rfl
    | some n => rfl
  · rw [if_neg hd]
    rfl

theorem castCellSpec_isna (cfg : EngineCfg) (df : DataFrame) (c : String)
    (r : Nat) : (castCellSpec cfg df c r).isna = (df.cell c r).isna := by
  unfold castCellSpec
  cases ha : astypeAction cfg df
      (getBaseColumns df.colNames cfg.fieldLangSeparator) c with
  | none => rfl
  | some d =>
    show (match castValAs d (df.cell c r) with
      | .ok w => w
      | .error _ => df.cell c r).isna = (df.cell c r).isna
    cases hc : castValAs d (df.cell c r) with
    | ok w => exact castValAs_isna d _ w hc
    | error e => rfl

theorem astypeBases_castCellSpec (cfg : EngineCfg) (df dft : DataFrame)
    (h : astypeBases cfg df
      (getBaseColumns df.colNames cfg.fieldLangSeparator) df = .ok dft) :
    ∀ c r, dft.cell c r = castCellSpec cfg df c r := by
  intro c r
  obtain ⟨h1, h2⟩ := astypeBases_cells cfg df _ df dft h c r
  unfold castCellSpec
  cases ha : astypeAction cfg df
      (getBaseColumns df.colNames cfg.fieldLangSeparator) c with
  | none => exact h1 ha
  | some d =>
    have h3 := h2 d ha
    show dft.cell c r = (match castValAs d (df.cell c r) with
      | .ok w => w
      | .error _ => df.cell c r)
    cases hc : castValAs d (df.cell c r) with
    | ok w =>
      rw [hc] at h3
      injection h3 with h4
      rw [h4]
    | error e =>
      rw [hc] at h3
      cases h3

theorem specCell_nolang (tr : Val → Except String String) (cfg : EngineCfg)
    (df : DataFrame) (setCols exCols : List String) (c : String) (r : Nat)
    (h : baseLangOf cfg.fieldLangSeparator c = none) :
    specCell tr cfg df setCols exCols c r = df.cell c r := by
  unfold specCell
  rw [writeAction_nolang cfg df _ c h]
  show castCellSpec cfg df c r = df.cell c r
  unfold castCellSpec
  rw [astypeAction_nolang cfg df _ c h]

theorem specCell_source (tr : Val → Except String String) (cfg : EngineCfg)
    (df : DataFrame) (setCols exCols : List String) (c b : String) (r : Nat)
    (hb : baseLangOf cfg.fieldLangSeparator c = some (b, cfg.sourceLang)) :
    specCell tr cfg df setCols exCols c r = df.cell c r := by
  unfold specCell
  rw [writeAction_source cfg df _ c b hb]
  show castCellSpec cfg df c r = df.cell c r
  unfold castCellSpec
  rw [astypeAction_source cfg df _ c b hb]

/-! ## Pass-level characterization -/

theorem processPassReg_char (tr : Val → Except String String) (cb : Bool)
    (df : DataFrame) (scol tcol : String) (d : Dtype) (st st' : TState)
    (hrun : processPassReg tr cb df scol tcol d st = st')
    (hwf : st.df.WF) (hm : tcol ∈ st.df.colNames)
    (hnr : st.df.nrows = df.nrows) :
    st'.df.WF ∧ st'.df.colNames = st.df.colNames ∧
    st'.df.nrows = st.df.nrows ∧
    st'.transCount = st.transCount + (eligibleRows df tcol scol).length ∧
    st'.castWarnings = st.castWarnings + ((eligibleRows df tcol scol).filter
      (fun r => regCastWarns tr d (df.cell scol r))).length ∧
    (∀ c' r', c' ≠ tcol → st'.df.cell c' r' = st.df.cell c' r') ∧
    (∀ r', st'.df.cell tcol r' =
      if r' ∈ eligibleRows df tcol scol then
        regWrittenVal tr d (df.cell scol r')
      else st.df.cell tcol r') := by
  obtain ⟨g1, g2, g3, g4, g5, g6, g7, g8⟩ :=
    regRowsLoop_char tr cb df scol tcol d (eligibleRows df tcol scol) st st'
      hrun hwf hm hnr
      (fun r hr => by
        obtain ⟨h1, h2, h3⟩ := (mem_eligibleRows df tcol scol r).mp hr
        exact ⟨h3, h1⟩)
      (eligibleRows_nodup df tcol scol)
  refine ⟨g1, g2, g3, g4, g5, g6, ?_⟩
  intro r'
  by_cases hr : r' ∈ eligibleRows df tcol scol
  · rw [if_pos hr]
    exact g8 r' hr
  · rw [if_neg hr]
    exact g7 r' hr

theorem processPassSet_char (tr : Val → Except String String) (cb : Bool)
    (sep : String) (df : DataFrame) (scol tcol : String) (st st' : TState)
    (hrun : processPassSet tr cb sep df scol tcol st = .ok st')
    (hwf : st.df.WF) (hm : tcol ∈ st.df.colNames)
    (hnr : st.df.nrows = df.nrows) :
    st'.df.WF ∧ st'.df.colNames = st.df.colNames ∧
    st'.df.nrows = st.df.nrows ∧
    st'.transCount = st.transCount +
      (if (eligibleRows df tcol scol).isEmpty then 0
       else if (setAllElements df scol (eligibleRows df tcol scol)
           sep).isEmpty then 0
       else (setAllElements df scol (eligibleRows df tcol scol)
         sep).length) ∧
    st'.castWarnings = st.castWarnings ∧
    (∀ c' r', c' ≠ tcol → st'.df.cell c' r' = st.df.cell c' r') ∧
    (∀ r', st'.df.cell tcol r' =
      if r' ∈ eligibleRows df tcol scol ∧
          ¬ (setAllElements df scol (eligibleRows df tcol scol)
            sep).isEmpty then
        Val.vstr (setCellSpec tr sep (df.cell scol r'))
      else st.df.cell tcol r') := by
  simp only [processPassSet] at hrun
  by_cases hrows : (eligibleRows df tcol scol).isEmpty = true
  · rw [if_pos hrows] at hrun
    injection hrun with h
    subst h
    refine ⟨hwf, rfl, rfl, ?_, rfl, fun _ _ _ => rfl, ?_⟩
    · rw [if_pos hrows]
      omega
    · intro r'
      have hcond : ¬ (r' ∈ eligibleRows df tcol scol ∧
          ¬ (setAllElements df scol (eligibleRows df tcol scol)
            sep).isEmpty = true) := by
        rintro ⟨hmem, -⟩
        rw [List.isEmpty_iff] at hrows
        rw [hrows] at hmem
        exact List.not_mem_nil _ hmem
      rw [if_neg hcond]
  · rw [if_neg hrows] at hrun
    by_cases helems : (setAllElements df scol (eligibleRows df tcol scol)
        sep).isEmpty = true
    · rw [if_pos helems] at hrun
      injection hrun with h
      subst h
      refine ⟨hwf, rfl, rfl, ?_, rfl, fun _ _ _ => rfl, ?_⟩
      · rw [if_neg hrows, if_pos helems]
        omega
      · intro r'
        have hcond : ¬ (r' ∈ eligibleRows df tcol scol ∧
            ¬ (setAllElements df scol (eligibleRows df tcol scol)
              sep).isEmpty = true) := fun h => h.2 helems
        rw [if_neg hcond]
    · rw [if_neg helems] at hrun
      obtain ⟨g1, g2, g3, g4, g5, g6, g7, g8⟩ :=
        setRowsLoop_char tr cb sep df scol tcol
          (setAllElements df scol (eligibleRows df tcol scol) sep)
          (setAllElements_trimmed df scol (eligibleRows df tcol scol) sep)
          (eligibleRows df tcol scol)
          { st with transCount := st.transCount +
              (setAllElements df scol (eligibleRows df tcol scol)
                sep).length }
          st' hrun hwf hm hnr
          (fun r hr => by
            obtain ⟨h1, h2, h3⟩ := (mem_eligibleRows df tcol scol r).mp hr
            exact ⟨h3, h1⟩)
          (eligibleRows_nodup df tcol scol)
      refine ⟨g1, g2, g3, ?_, g5, g6, ?_⟩
      · rw [g4, if_neg hrows, if_neg helems]
      · intro r'
        by_cases hr : r' ∈ eligibleRows df tcol scol
        · rw [if_pos ⟨hr, helems⟩]
          exact g8 r' hr
        · have hcond : ¬ (r' ∈ eligibleRows df tcol scol ∧
              ¬ (setAllElements df scol (eligibleRows df tcol scol)
                sep).isEmpty = true) := fun h => hr h.1
          rw [if_neg hcond]
          exact g7 r' hr

theorem langsLoop_char (tr : Val → Except String String) (cb : Bool)
    (cfg : EngineCfg) (setCols : List String) (df : DataFrame)
    (base scol : String) :
    ∀ (lcs : List (String × String)) (st st' : TState),
      langsLoop tr cb cfg setCols df base scol lcs st = .ok st' →
      st.df.WF → st.df.colNames = df.colNames → st.df.nrows = df.nrows →
      (∀ p ∈ lcs, p.2 ∈ df.colNames) →
      (lcs.map Prod.snd).Nodup →
      st'.df.WF ∧ st'.df.colNames = st.df.colNames ∧
      st'.df.nrows = st.df.nrows ∧
      st'.transCount = st.transCount + (lcs.map fun p =>
        if p.1 = cfg.sourceLang then 0
        else passCountSpec df setCols cfg.setSeparator base scol p.2).sum ∧
      st'.castWarnings = st.castWarnings + (lcs.map fun p =>
        if p.1 = cfg.sourceLang then 0
        else passWarnsSpec tr df setCols base scol p.2).sum ∧
      (∀ c' r', (∀ p ∈ lcs, p.1 ≠ cfg.sourceLang → c' ≠ p.2) →
        st'.df.cell c' r' = st.df.cell c' r') ∧
      (∀ p ∈ lcs, p.1 ≠ cfg.sourceLang → ∀ r',
        st'.df.cell p.2 r' = passCellVal tr setCols cfg.setSeparator df base
          scol p.2 r' (st.df.cell p.2 r')) := by
  intro lcs
  induction lcs with
  | nil =>
    intro st st' hrun hwf hcols hnr hmem hnd
    have h0 : langsLoop tr cb cfg setCols df base scol [] st = .ok st := rfl
    rw [h0] at hrun
    injection hrun with h
    subst h
    refine ⟨hwf, rfl, rfl, by simp, by simp, fun _ _ _ => rfl, ?_⟩
    intro p hp
    exact absurd hp (List.not_mem_nil _)
  | cons q rest ih =>
    intro st st' hrun hwf hcols hnr hmem hnd
    obtain ⟨l₀, t₀⟩ := q
    have hstep : langsLoop tr cb cfg setCols df base scol
        ((l₀, t₀) :: rest) st =
        (if l₀ = cfg.sourceLang then
          langsLoop tr cb cfg setCols df base scol rest st
        else if base ∈ setCols then
          match processPassSet tr cb cfg.setSeparator df scol t₀ st with
          | .error e => .error e
          | .ok st1 => langsLoop tr cb cfg setCols df base scol rest st1
        else
          langsLoop tr cb cfg setCols df base scol rest
            (processPassReg tr cb df scol t₀ (df.dtypeOf scol) st)) := rfl
    rw [hstep] at hrun
    have hnd' : t₀ ∉ rest.map Prod.snd ∧ (rest.map Prod.snd).Nodup := by
      rw [List.map_cons] at hnd
      exact List.nodup_cons.mp hnd
    have hnotin : t₀ ∉ rest.map Prod.snd := hnd'.1
    have hnd2 : (rest.map Prod.snd).Nodup := hnd'.2
    have hmemtl : ∀ p ∈ rest, p.2 ∈ df.colNames :=
      fun p hp => hmem p (List.mem_cons_of_mem _ hp)
    by_cases hl : l₀ = cfg.sourceLang
    · rw [if_pos hl] at hrun
      obtain ⟨g1, g2, g3, g4, g5, g6, g7⟩ :=
        ih st st' hrun hwf hcols hnr hmemtl hnd2
      refine ⟨g1, g2, g3, ?_, ?_, ?_, ?_⟩
      · rw [g4]
        simp only [List.map_cons, List.sum_cons]
        rw [if_pos hl]
        omega
      · rw [g5]
        simp only [List.map_cons, List.sum_cons]
        rw [if_pos hl]
        omega
      · intro c' r' hc'
        exact g6 c' r' (fun p hp => hc' p (List.mem_cons_of_mem _ hp))
      · intro p hp hpl r'
        rcases List.mem_cons.mp hp with heq | hp2
        · rw [heq] at hpl
          exact absurd hl hpl
        · exact g7 p hp2 hpl r'
    · rw [if_neg hl] at hrun
      have hmem₀ : t₀ ∈ df.colNames := hmem (l₀, t₀) (List.mem_cons_self _ _)
      by_cases hset : base ∈ setCols
      · rw [if_pos hset] at hrun
        cases hps : processPassSet tr cb cfg.setSeparator df scol t₀ st with
        | error e => rw [hps] at hrun; cases hrun
        | ok st1 =>
          rw [hps] at hrun
          obtain ⟨p1, p2, p3, p4, p5, p6, p7⟩ :=
            processPassSet_char tr cb cfg.setSeparator df scol t₀ st st1 hps
              hwf (by rw [hcols]; exact hmem₀) hnr
          obtain ⟨g1, g2, g3, g4, g5, g6, g7⟩ :=
            ih st1 st' hrun p1 (p2.trans hcols) (p3.trans hnr) hmemtl hnd2
          have hpc : passCountSpec df setCols cfg.setSeparator base scol t₀ =
              (if (eligibleRows df t₀ scol).isEmpty then 0
               else if (setAllElements df scol (eligibleRows df t₀ scol)
                   cfg.setSeparator).isEmpty then 0
               else (setAllElements df scol (eligibleRows df t₀ scol)
                 cfg.setSeparator).length) := by
            simp only [passCountSpec]
            rw [if_pos hset]
          have hpw : passWarnsSpec tr df setCols base scol t₀ = 0 := by
            simp only [passWarnsSpec]
            rw [if_pos hset]
          refine ⟨g1, g2.trans p2, g3.trans p3, ?_, ?_, ?_, ?_⟩
          · rw [g4, p4]
            simp only [List.map_cons, List.sum_cons]
            rw [if_neg hl, hpc]
            omega
          · rw [g5, p5]
            simp only [List.map_cons, List.sum_cons]
            rw [if_neg hl, hpw]
            omega
          · intro c' r' hc'
            rw [g6 c' r' (fun p hp hpne => hc' p (List.mem_cons_of_mem _ hp)
              hpne)]
            exact p6 c' r' (hc' (l₀, t₀) (List.mem_cons_self _ _) hl)
          · intro p hp hpl r'
            rcases List.mem_cons.mp hp with heq | hp2
            · subst heq
              rw [g6 t₀ r' (fun q hq hql heq2 =>
                hnotin (heq2 ▸ List.mem_map_of_mem Prod.snd hq))]
              rw [p7 r']
              simp only [passCellVal]
              rw [if_pos hset]
            · rw [g7 p hp2 hpl r']
              rw [p6 p.2 r' (fun heq2 =>
                hnotin (heq2 ▸ List.mem_map_of_mem Prod.snd hp2))]
      · rw [if_neg hset] at hrun
        obtain ⟨p1, p2, p3, p4, p5, p6, p7⟩ :=
          processPassReg_char tr cb df scol t₀ (df.dtypeOf scol) st
            (processPassReg tr cb df scol t₀ (df.dtypeOf scol) st) rfl
            hwf (by rw [hcols]; exact hmem₀) hnr
        obtain ⟨g1, g2, g3, g4, g5, g6, g7⟩ :=
          ih _ st' hrun p1 (p2.trans hcols) (p3.trans hnr) hmemtl hnd2
        have hpc : passCountSpec df setCols cfg.setSeparator base scol t₀ =
            (eligibleRows df t₀ scol).length := by
          simp only [passCountSpec]
          rw [if_neg hset]
        have hpw : passWarnsSpec tr df setCols base scol t₀ =
            ((eligibleRows df t₀ scol).filter
              (fun r => regCastWarns tr (df.dtypeOf scol)
                (df.cell scol r))).length := by
          simp only [passWarnsSpec]
          rw [if_neg hset]
        refine ⟨g1, g2.trans p2, g3.trans p3, ?_, ?_, ?_, ?_⟩
        · rw [g4, p4]
          simp only [List.map_cons, List.sum_cons]
          rw [if_neg hl, hpc]
          omega
        · rw [g5, p5]
          simp only [List.map_cons, List.sum_cons]
          rw [if_neg hl, hpw]
          omega
        · intro c' r' hc'
          rw [g6 c' r' (fun p hp hpne => hc' p (List.mem_cons_of_mem _ hp)
            hpne)]
          exact p6 c' r' (hc' (l₀, t₀) (List.mem_cons_self _ _) hl)
        · intro p hp hpl r'
          rcases List.mem_cons.mp hp with heq | hp2
          · subst heq
            rw [g6 t₀ r' (fun q hq hql heq2 =>
              hnotin (heq2 ▸ List.mem_map_of_mem Prod.snd hq))]
            rw [p7 r']
            simp only [passCellVal]
            rw [if_neg hset]
          · rw [g7 p hp2 hpl r']
            rw [p6 p.2 r' (fun heq2 =>
              hnotin (heq2 ▸ List.mem_map_of_mem Prod.snd hp2))]

theorem basesLoop_char (tr : Val → Except String String) (cb : Bool)
    (cfg : EngineCfg) (setCols : List String) (df : DataFrame) :
    ∀ (bases : List String) (st st' : TState),
      basesLoop tr cb cfg setCols df bases st = .ok st' →
      st.df.WF → st.df.colNames = df.colNames → st.df.nrows = df.nrows →
      bases.Nodup →
      st'.df.WF ∧ st'.df.colNames = st.df.colNames ∧
      st'.df.nrows = st.df.nrows ∧
      st'.transCount = st.transCount + basesCountSpec cfg df setCols bases ∧
      st'.castWarnings = st.castWarnings +
        (bases.map (baseWarnsSpec tr cfg df setCols)).sum ∧
      (∀ c' r', writeAction cfg df bases c' = none →
        st'.df.cell c' r' = st.df.cell c' r') ∧
      (∀ c' b l scol r',
        baseLangOf cfg.fieldLangSeparator c' = some (b, l) →
        writeAction cfg df bases c' = some scol →
        st'.df.cell c' r' = passCellVal tr setCols cfg.setSeparator df b scol
          c' r' (st.df.cell c' r')) := by
  intro bases
  induction bases with
  | nil =>
    intro st st' hrun hwf hcols hnr hnd
    have h0 : basesLoop tr cb cfg setCols df [] st = .ok st := rfl
    rw [h0] at hrun
    injection hrun with h
    subst h
    refine ⟨hwf, rfl, rfl, by simp [basesCountSpec], by simp,
      fun _ _ _ => rfl, ?_⟩
    intro c' b l scol r' hb hw
    obtain ⟨b2, l2, -, -, hbm, -, -⟩ := writeAction_elim cfg df [] c' scol hw
    exact absurd hbm (List.not_mem_nil _)
  | cons b₀ rest ih =>
    intro st st' hrun hwf hcols hnr hnd
    simp only [basesLoop] at hrun
    have hnd0 : b₀ ∉ rest := (List.nodup_cons.mp hnd).1
    have hnd2 : rest.Nodup := (List.nodup_cons.mp hnd).2
    cases hsc : lookupLang
        (getLanguageColumns df b₀ cfg.fieldLangSeparator) cfg.sourceLang with
    | none =>
      rw [hsc] at hrun
      have hscf : sourceColFor df cfg.fieldLangSeparator cfg.sourceLang b₀ =
          none := hsc
      obtain ⟨g1, g2, g3, g4, g5, g6, g7⟩ :=
        ih st st' hrun hwf hcols hnr hnd2
      have hb0 : baseCountSpec cfg df setCols b₀ = 0 := by
        unfold baseCountSpec
        rw [hscf]
      have hw0 : baseWarnsSpec tr cfg df setCols b₀ = 0 := by
        unfold baseWarnsSpec
        rw [hscf]
      have hbs : basesCountSpec cfg df setCols (b₀ :: rest) =
          baseCountSpec cfg df setCols b₀ +
            basesCountSpec cfg df setCols rest := by
        unfold basesCountSpec
        rw [List.map_cons, List.sum_cons]
      have hws : ((b₀ :: rest).map (baseWarnsSpec tr cfg df setCols)).sum =
          baseWarnsSpec tr cfg df setCols b₀ +
            (rest.map (baseWarnsSpec tr cfg df setCols)).sum := by
        rw [List.map_cons, List.sum_cons]
      refine ⟨g1, g2, g3, ?_, ?_, ?_, ?_⟩
      · rw [g4, hbs, hb0]
        omega
      · rw [g5, hws, hw0]
        omega
      · intro c' r' hw
        by_cases hbl : ∃ b l, baseLangOf cfg.fieldLangSeparator c' =
            some (b, l)
        · obtain ⟨b, l, hb⟩ := hbl
          apply g6 c' r'
          cases hr : writeAction cfg df rest c' with
          | none => rfl
          | some sc =>
            obtain ⟨b2, l2, hb2, hls2, hbm2, hsc2, hcm2⟩ :=
              writeAction_elim cfg df rest c' sc hr
            rw [writeAction_intro cfg df (b₀ :: rest) c' b2 l2 sc hb2 hls2
              (List.mem_cons_of_mem _ hbm2) hsc2 hcm2] at hw
            cases hw
        · push_neg at hbl
          have hb : baseLangOf cfg.fieldLangSeparator c' = none := by
            cases hx : baseLangOf cfg.fieldLangSeparator c' with
            | none => rfl
            | some p => exact absurd hx (by
                obtain ⟨b, l⟩ := p
                exact hbl b l)
          exact g6 c' r' (writeAction_nolang cfg df rest c' hb)
      · intro c' b l scol r' hb hw
        obtain ⟨b2, l2, hb2, hls2, hbm2, hsc2, hcm2⟩ :=
          writeAction_elim cfg df (b₀ :: rest) c' scol hw
        rw [hb] at hb2
        have hbb : b = b2 ∧ l = l2 := by
          simp only [Option.some.injEq, Prod.mk.injEq] at hb2
          exact hb2
        obtain ⟨hbb1, hbb2⟩ := hbb
        subst hbb1
        subst hbb2
        have hbrest : b ∈ rest := by
          rcases List.mem_cons.mp hbm2 with hx | hx
          · subst hx
            rw [hsc2] at hscf
            cases hscf
          · exact hx
        exact g7 c' b l scol r' hb
          (writeAction_intro cfg df rest c' b l scol hb hls2 hbrest hsc2 hcm2)
    | some scol₀ =>
      rw [hsc] at hrun
      have hscf : sourceColFor df cfg.fieldLangSeparator cfg.sourceLang b₀ =
          some scol₀ := hsc
      replace hrun : (match langsLoop tr cb cfg setCols df b₀ scol₀
          (getLanguageColumns df b₀ cfg.fieldLangSeparator) st with
        | Except.error e => (Except.error e : Except String TState)
        | Except.ok st1 => basesLoop tr cb cfg setCols df rest st1) =
          Except.ok st' := hrun
      cases hll : langsLoop tr cb cfg setCols df b₀ scol₀
          (getLanguageColumns df b₀ cfg.fieldLangSeparator) st with
      | error e => rw [hll] at hrun; cases hrun
      | ok st1 =>
        rw [hll] at hrun
        have hmemlcs : ∀ p ∈ getLanguageColumns df b₀ cfg.fieldLangSeparator,
            p.2 ∈ df.colNames := by
          intro p hp
          exact ((mem_getLanguageColumns df b₀ cfg.fieldLangSeparator
            p.1 p.2).mp hp).1
        have hlcsb : ∀ p ∈ getLanguageColumns df b₀ cfg.fieldLangSeparator,
            baseLangOf cfg.fieldLangSeparator p.2 = some (b₀, p.1) := by
          intro p hp
          exact ((mem_getLanguageColumns df b₀ cfg.fieldLangSeparator
            p.1 p.2).mp hp).2
        have hsnd : ((getLanguageColumns df b₀
            cfg.fieldLangSeparator).map Prod.snd).Nodup :=
          getLanguageColumns_snd_nodup df b₀ cfg.fieldLangSeparator
            (hcols ▸ hwf.2)
        obtain ⟨p1, p2, p3, p4, p5, p6, p7⟩ :=
          langsLoop_char tr cb cfg setCols df b₀ scol₀
            (getLanguageColumns df b₀ cfg.fieldLangSeparator) st st1 hll
            hwf hcols hnr hmemlcs hsnd
        obtain ⟨g1, g2, g3, g4, g5, g6, g7⟩ :=
          ih st1 st' hrun p1 (p2.trans hcols) (p3.trans hnr) hnd2
        have hbc : baseCountSpec cfg df setCols b₀ =
            ((getLanguageColumns df b₀ cfg.fieldLangSeparator).map fun p =>
              if p.1 = cfg.sourceLang then 0
              else passCountSpec df setCols cfg.setSeparator b₀ scol₀
                p.2).sum := by
          unfold baseCountSpec
          rw [hscf]
        have hbw : baseWarnsSpec tr cfg df setCols b₀ =
            ((getLanguageColumns df b₀ cfg.fieldLangSeparator).map fun p =>
              if p.1 = cfg.sourceLang then 0
              else passWarnsSpec tr df setCols b₀ scol₀ p.2).sum := by
          unfold baseWarnsSpec
          rw [hscf]
        have hbs : basesCountSpec cfg df setCols (b₀ :: rest) =
            baseCountSpec cfg df setCols b₀ +
              basesCountSpec cfg df setCols rest := by
          unfold basesCountSpec
          rw [List.map_cons, List.sum_cons]
        have hws : ((b₀ :: rest).map (baseWarnsSpec tr cfg df setCols)).sum =
            baseWarnsSpec tr cfg df setCols b₀ +
              (rest.map (baseWarnsSpec tr cfg df setCols)).sum := by
          rw [List.map_cons, List.sum_cons]
        refine ⟨g1, g2.trans p2, g3.trans p3, ?_, ?_, ?_, ?_⟩
        · rw [g4, p4, hbs, hbc]
          omega
        · rw [g5, p5, hws, hbw]
          omega
        · intro c' r' hw
          rw [g6 c' r' (writeAction_none_tail cfg df b₀ rest c' hw)]
          apply p6 c' r'
          intro p hp hpl heq
          rw [writeAction_intro cfg df (b₀ :: rest) c' b₀ p.1 scol₀
            (heq ▸ hlcsb p hp) hpl (List.mem_cons_self _ _) hscf
            (heq ▸ hmemlcs p hp)] at hw
          cases hw
        · intro c' b l scol r' hb hw
          obtain ⟨b2, l2, hb2, hls2, hbm2, hsc2, hcm2⟩ :=
            writeAction_elim cfg df (b₀ :: rest) c' scol hw
          rw [hb] at hb2
          have hbb : b = b2 ∧ l = l2 := by
            simp only [Option.some.injEq, Prod.mk.injEq] at hb2
            exact hb2
          obtain ⟨hbe, hle⟩ := hbb
          subst hbe
          subst hle
          by_cases hbb0 : b = b₀
          · have hse : scol = scol₀ := by
              rw [hbb0] at hsc2
              rw [hsc2] at hscf
              injection hscf
            have hpm : (l, c') ∈ getLanguageColumns df b₀
                cfg.fieldLangSeparator :=
              (mem_getLanguageColumns df b₀ cfg.fieldLangSeparator l c').mpr
                ⟨hcm2, by rw [← hbb0]; exact hb⟩
            have hwrest : writeAction cfg df rest c' = none := by
              cases hr : writeAction cfg df rest c' with
              | none => rfl
              | some sc =>
                obtain ⟨b3, l3, hb3, -, hbm3, -, -⟩ :=
                  writeAction_elim cfg df rest c' sc hr
                rw [hb] at hb3
                have hb3' : b = b3 ∧ l = l3 := by
                  simp only [Option.some.injEq, Prod.mk.injEq] at hb3
                  exact hb3
                rw [hbb0] at hb3'
                exact absurd (hb3'.1 ▸ hbm3) hnd0
            rw [g6 c' r' hwrest, hbb0, hse]
            exact p7 (l, c') hpm hls2 r'
          · have hbrest : b ∈ rest := by
              rcases List.mem_cons.mp hbm2 with hx | hx
              · exact absurd hx hbb0
              · exact hx
            have hwrest : writeAction cfg df rest c' = some scol :=
              writeAction_intro cfg df rest c' b l scol hb hls2 hbrest
                hsc2 hcm2
            rw [g7 c' b l scol r' hb hwrest]
            rw [p6 c' r' ?hne]
            case hne =>
              intro p hp hpl heq
              have hx := hlcsb p hp
              rw [← heq, hb] at hx
              have hx' : b = b₀ ∧ l = p.1 := by
                simp only [Option.some.injEq, Prod.mk.injEq] at hx
                exact hx
              exact hbb0 hx'.1

/-- Master characterization of `translate_dataframe`: a run that
returns `ok` preserves the frame shape, counts exactly
`totalCountSpec` translations and `totalWarnsSpec` cast warnings, and
every cell of the output equals `specCell` of the input. -/
theorem translateDataframe_char (tr : Val → Except String String)
    (cfg : EngineCfg) (df : DataFrame) (setCols exCols : List String)
    (cb : Bool) (out : TState)
    (hrun : translateDataframe tr cfg df setCols exCols cb = .ok out)
    (hwf : df.WF) :
    out.df.WF ∧ out.df.colNames = df.colNames ∧ out.df.nrows = df.nrows ∧
    out.transCount = totalCountSpec cfg df setCols exCols ∧
    out.castWarnings = totalWarnsSpec tr cfg df setCols exCols ∧
    (∀ c r, out.df.cell c r = specCell tr cfg df setCols exCols c r) := by
  simp only [translateDataframe] at hrun
  cases hab : astypeBases cfg df
      (getBaseColumns df.colNames cfg.fieldLangSeparator) df with
  | error e => rw [hab] at hrun; cases hrun
  | ok dft =>
    rw [hab] at hrun
    replace hrun : basesLoop tr cb cfg setCols df
        ((getBaseColumns df.colNames cfg.fieldLangSeparator).filter
          (fun b => b ∉ exCols))
        { df := dft, transCount := 0, castWarnings := 0, snaps := [] } =
        Except.ok out := hrun
    obtain ⟨s1, s2, s3⟩ := astypeBases_shape cfg df _ df dft hab
    have hdftwf : dft.WF := s3 hwf
    have hdftcells := astypeBases_castCellSpec cfg df dft hab
    have hgnd : (getBaseColumns df.colNames cfg.fieldLangSeparator).Nodup := by
      unfold getBaseColumns
      exact List.nodup_dedup _
    obtain ⟨g1, g2, g3, g4, g5, g6, g7⟩ := basesLoop_char tr cb cfg setCols df
      ((getBaseColumns df.colNames cfg.fieldLangSeparator).filter
        (fun b => b ∉ exCols))
      { df := dft, transCount := 0, castWarnings := 0, snaps := [] }
      out hrun hdftwf s1 s2 (hgnd.filter _)
    refine ⟨g1, g2.trans s1, g3.trans s2, ?_, ?_, ?_⟩
    · rw [g4]
      show 0 + basesCountSpec cfg df setCols _ =
        totalCountSpec cfg df setCols exCols
      rw [Nat.zero_add]
      rfl
    · rw [g5]
      show 0 + _ = totalWarnsSpec tr cfg df setCols exCols
      rw [Nat.zero_add]
      rfl
    · intro c r
      unfold specCell
      cases hw : writeAction cfg df
          ((getBaseColumns df.colNames cfg.fieldLangSeparator).filter
            (fun b => b ∉ exCols)) c with
      | none =>
        rw [g6 c r hw]
        show dft.cell c r = castCellSpec cfg df c r
        exact hdftcells c r
      | some scol =>
        cases hb : baseLangOf cfg.fieldLangSeparator c with
        | none =>
          obtain ⟨b2, l2, hb2, -, -, -, -⟩ :=
            writeAction_elim cfg df _ c scol hw
          rw [hb] at hb2
          cases hb2
        | some p =>
          obtain ⟨b, l⟩ := p
          rw [g7 c b l scol r hb hw]
          show passCellVal tr setCols cfg.setSeparator df b scol c r
            (dft.cell c r) = _
          rw [hdftcells c r]
          rfl

theorem specCell_some (tr : Val → Except String String) (cfg : EngineCfg)
    (df : DataFrame) (setCols exCols : List String) (c : String) (r : Nat)
    (b l scol : String)
    (hb : baseLangOf cfg.fieldLangSeparator c = some (b, l))
    (hw : writeAction cfg df
      ((getBaseColumns df.colNames cfg.fieldLangSeparator).filter
        (fun x => x ∉ exCols)) c = some scol) :
    specCell tr cfg df setCols exCols c r =
      (if b ∈ setCols then
        if r ∈ eligibleRows df c scol ∧
            ¬ (setAllElements df scol (eligibleRows df c scol)
              cfg.setSeparator).isEmpty then
          Val.vstr (setCellSpec tr cfg.setSeparator (df.cell scol r))
        else castCellSpec cfg df c r
      else if r ∈ eligibleRows df c scol then
        regWrittenVal tr (df.dtypeOf scol) (df.cell scol r)
      else castCellSpec cfg df c r) := by
  unfold specCell
  rw [hw, hb]

/-- After a successful run, the output table admits no further
translations: the count specification evaluated on the output is 0. -/
theorem secondRun_count_zero (tr : Val → Except String String)
    (cfg : EngineCfg) (df : DataFrame) (setCols exCols : List String)
    (cb : Bool) (out : TState)
    (hrun : translateDataframe tr cfg df setCols exCols cb = .ok out)
    (hwf : df.WF) :
    totalCountSpec cfg out.df setCols exCols = 0 := by
  obtain ⟨owf, ocols, onrows, -, -, ocell⟩ :=
    translateDataframe_char tr cfg df setCols exCols cb out hrun hwf
  unfold totalCountSpec basesCountSpec
  rw [ocols]
  apply List.sum_eq_zero
  intro x hx
  rw [List.mem_map] at hx
  obtain ⟨b, hbmem, hxe⟩ := hx
  rw [← hxe]
  unfold baseCountSpec
  rw [sourceColFor_congr out.df df cfg.fieldLangSeparator cfg.sourceLang b
    ocols]
  cases hsc : sourceColFor df cfg.fieldLangSeparator cfg.sourceLang b with
  | none => rfl
  | some scol =>
    rw [getLanguageColumns_congr out.df df b cfg.fieldLangSeparator ocols]
    apply List.sum_eq_zero
    intro y hy
    rw [List.mem_map] at hy
    obtain ⟨p, hpmem, hye⟩ := hy
    rw [← hye]
    by_cases hpl : p.1 = cfg.sourceLang
    · rw [if_pos hpl]
    · rw [if_neg hpl]
      obtain ⟨hcm, hblc⟩ :=
        (mem_getLanguageColumns df b cfg.fieldLangSeparator p.1 p.2).mp hpmem
      have hw : writeAction cfg df
          ((getBaseColumns df.colNames cfg.fieldLangSeparator).filter
            (fun x => x ∉ exCols)) p.2 = some scol :=
        writeAction_intro cfg df _ p.2 b p.1 scol hblc hpl hbmem hsc hcm
      obtain ⟨hscolm, hscb⟩ :=
        sourceColFor_mem df cfg.fieldLangSeparator cfg.sourceLang b scol hsc
      have hscell : ∀ r', out.df.cell scol r' = df.cell scol r' := by
        intro r'
        rw [ocell scol r']
        exact specCell_source tr cfg df setCols exCols scol b r' hscb
      have htcell : ∀ r', out.df.cell p.2 r' =
          (if b ∈ setCols then
            if r' ∈ eligibleRows df p.2 scol ∧
                ¬ (setAllElements df scol (eligibleRows df p.2 scol)
                  cfg.setSeparator).isEmpty then
              Val.vstr (setCellSpec tr cfg.setSeparator (df.cell scol r'))
            else castCellSpec cfg df p.2 r'
          else if r' ∈ eligibleRows df p.2 scol then
            regWrittenVal tr (df.dtypeOf scol) (df.cell scol r')
          else castCellSpec cfg df p.2 r') := by
        intro r'
        rw [ocell p.2 r']
        exact specCell_some tr cfg df setCols exCols p.2 r' b p.1 scol
          hblc hw
      simp only [passCountSpec]
      by_cases hset : b ∈ setCols
      · rw [if_pos hset]
        by_cases hel : (setAllElements df scol (eligibleRows df p.2 scol)
            cfg.setSeparator).isEmpty = true
        · have hE : eligibleRows out.df p.2 scol =
              eligibleRows df p.2 scol := by
            unfold eligibleRows
            rw [onrows]
            apply List.filter_congr
            intro r' hr'
            have hcellE : out.df.cell p.2 r' = castCellSpec cfg df p.2 r' := by
              rw [htcell r', if_pos hset,
                if_neg (fun hh => hh.2 hel)]
            rw [hscell r', hcellE, castCellSpec_isna]
          rw [hE]
          by_cases hre : (eligibleRows df p.2 scol).isEmpty = true
          · rw [if_pos hre]
          · rw [if_neg hre]
            rw [setAllElements_congr out.df df scol
              (eligibleRows df p.2 scol) cfg.setSeparator
              (fun r' _ => hscell r')]
            rw [if_pos hel]
        · have hE : eligibleRows out.df p.2 scol = [] := by
            rw [List.eq_nil_iff_forall_not_mem]
            intro r' hr'
            obtain ⟨hr1, hr2, hr3⟩ :=
              (mem_eligibleRows out.df p.2 scol r').mp hr'
            rw [hscell r'] at hr3
            rw [htcell r', if_pos hset] at hr2
            by_cases hrE : r' ∈ eligibleRows df p.2 scol
            · rw [if_pos ⟨hrE, hel⟩] at hr2
              simp [Val.isna, Val.notna] at hr2
            · rw [if_neg (fun hh => hrE hh.1)] at hr2
              rw [castCellSpec_isna] at hr2
              have hrlt : r' < df.nrows := by
                rw [← onrows]
                exact hr1
              exact hrE ((mem_eligibleRows df p.2 scol r').mpr
                ⟨hrlt, hr2, hr3⟩)
          rw [hE]
          rfl
      · rw [if_neg hset]
        have hE : eligibleRows out.df p.2 scol = [] := by
          rw [List.eq_nil_iff_forall_not_mem]
          intro r' hr'
          obtain ⟨hr1, hr2, hr3⟩ :=
            (mem_eligibleRows out.df p.2 scol r').mp hr'
          rw [hscell r'] at hr3
          rw [htcell r', if_neg hset] at hr2
          by_cases hrE : r' ∈ eligibleRows df p.2 scol
          · rw [if_pos hrE] at hr2
            have hnn := regWrittenVal_notna tr (df.dtypeOf scol)
              (df.cell scol r')
            simp [Val.isna, hnn] at hr2
          · rw [if_neg hrE] at hr2
            rw [castCellSpec_isna] at hr2
            have hrlt : r' < df.nrows := by
              rw [← onrows]
              exact hr1
            exact hrE ((mem_eligibleRows df p.2 scol r').mpr
              ⟨hrlt, hr2, hr3⟩)
        rw [hE]
        rfl

/-! ## Checkpoint filter characterization -/

theorem savesLoop_zero : ∀ (l : List DataFrame) (count lastSave : Nat),
    savesLoop 0 l count lastSave = [] := by
  intro l
  induction l with
  | nil => intro c ls; rfl
  | cons s rest ih =>
    intro c ls
    simp only [savesLoop]
    rw [if_neg (fun h => h.1 rfl)]
    exact ih _ _

theorem everyKth_zero : ∀ (j : Nat) (l : List DataFrame),
    everyKth 0 j l = [] := by
  intro j l
  induction l generalizing j with
  | nil => rfl
  | cons s rest ih =>
    simp only [everyKth]
    rw [if_neg (by omega)]
    exact ih (j + 1)

theorem savesLoop_eq_everyKth (k : Nat) (hk : k ≠ 0) :
    ∀ (l : List DataFrame) (j count lastSave : Nat),
      count - lastSave = j → lastSave ≤ count → j < k →
      savesLoop k l count lastSave = everyKth k j l := by
  intro l
  induction l with
  | nil => intro j c ls h1 h2 h3; rfl
  | cons s rest ih =>
    intro j c ls h1 h2 h3
    simp only [savesLoop, everyKth]
    by_cases hcond : k ≠ 0 ∧ c + 1 - ls ≥ k
    · rw [if_pos hcond]
      have hj : j + 1 = k := by omega
      have hmod : (j + 1) % k = 0 := by
        rw [hj]
        exact Nat.mod_self k
      rw [if_pos hmod]
      congr 1
      exact ih 0 (c + 1) (c + 1) (by omega) (by omega) (by omega)
    · rw [if_neg hcond]
      have hge : ¬ (c + 1 - ls ≥ k) := fun hge => hcond ⟨hk, hge⟩
      have hlt : j + 1 < k := by omega
      have hmod : (j + 1) % k ≠ 0 := by
        rw [Nat.mod_eq_of_lt hlt]
        omega
      rw [if_neg hmod]
      exact ih (j + 1) (c + 1) ls (by omega) (by omega) hlt

/-! # Claim theorems: translation service -/

/-- Claim C1: for every non-empty batch of texts, `translate_batch`
either returns a list with exactly as many elements as the input or
raises; when every attempt yields a line-count mismatch, exactly
`max_retries` request attempts are made, with the inter-attempt delay
doubling each attempt starting at 1 time unit, before the batch fails
with an error.  (Stated for `max_retries ≥ 1`; the claim's retry count
presupposes at least one attempt.) -/
theorem C1_translateBatch_retry_contract (api : Nat → ApiOutcome)
    (texts : List String) (m : Nat) (hne : texts ≠ []) (hm : 1 ≤ m) :
    (∀ ts, (translateBatch api texts m).result = .success ts →
      ts.length = texts.length) ∧
    (translateBatch api texts m).result ≠ .pyNone ∧
    ((∀ i, i < m → ∃ c, api i = .ok c ∧
        (processResponse c).length ≠ texts.length) →
      (∃ msg, (translateBatch api texts m).result = .failure msg) ∧
      (translateBatch api texts m).calls = m ∧
      (translateBatch api texts m).delays =
        (List.range (m - 1)).map (fun j => 2 ^ j)) := by
  have hcond : ¬ (texts.isEmpty = true) := fun h => hne (List.isEmpty_iff.mp h)
  unfold translateBatch
  rw [if_neg hcond]
  refine ⟨fun ts h => batchLoop_success_len api texts.length m 0 ts h,
    batchLoop_ne_pyNone api texts.length m 0 hm, fun hmis => ?_⟩
  obtain ⟨hfail, hcalls, hdelays⟩ := batchLoop_all_mismatch api texts.length
    m 0 hm (fun i h0 hi => hmis i (by omega))
  refine ⟨hfail, hcalls, ?_⟩
  rw [hdelays]
  apply List.map_congr_left
  intro j _
  rw [Nat.zero_add]

/-- Witness for C1: a two-text batch against a provider that always
returns one line runs all 3 attempts with delays 1 and 2 and fails. -/
theorem C1_translateBatch_retry_contract_witness :
    (translateBatch (fun _ => ApiOutcome.ok "x") ["a", "b"] 3).calls = 3 ∧
    (translateBatch (fun _ => ApiOutcome.ok "x") ["a", "b"] 3).delays =
      [1, 2] ∧
    (∃ msg, (translateBatch (fun _ => ApiOutcome.ok "x") ["a", "b"] 3).result =
      .failure msg) := by
  have h := C1_translateBatch_retry_contract (fun _ => ApiOutcome.ok "x")
    ["a", "b"] 3 (by decide) (by decide)
  obtain ⟨-, -, h3⟩ := h
  obtain ⟨hfail, hcalls, hdelays⟩ := h3 (by
    intro i hi
    exact ⟨"x", rfl, by decide⟩)
  refine ⟨hcalls, ?_, hfail⟩
  rw [hdelays]
  decide

/-- Claim C2: `translate_texts` processes batches sequentially in
order; the first `successCount` batches succeed, and if that is not all
of them, the next batch fails and the result is exactly the
concatenation of the translations of the prior successful batches; if
no batch fails the result has one translation per input text in input
order (each batch contributing a list of the same length as the batch,
in batch order). -/
theorem C2_translateTexts_partial_results (api : Nat → Nat → ApiOutcome)
    (bs : Nat) (texts : List String) (hbs : 1 ≤ bs) :
    successCount api (pyChunks bs texts) 0 ≤ (pyChunks bs texts).length ∧
    (∀ j, j < successCount api (pyChunks bs texts) 0 → ∃ ts,
      (translateBatch (api j) ((pyChunks bs texts).getD j []) 3).result =
        .success ts ∧ ts.length = ((pyChunks bs texts).getD j []).length) ∧
    (successCount api (pyChunks bs texts) 0 < (pyChunks bs texts).length →
      ∀ ts, (translateBatch (api (successCount api (pyChunks bs texts) 0))
        ((pyChunks bs texts).getD (successCount api (pyChunks bs texts) 0) [])
        3).result ≠ .success ts) ∧
    translateTexts api bs texts =
      ((List.range (successCount api (pyChunks bs texts) 0)).map
        (fun j => batchSuccess api ((pyChunks bs texts).getD j []) j)).flatten ∧
    (successCount api (pyChunks bs texts) 0 = (pyChunks bs texts).length →
      (translateTexts api bs texts).length = texts.length) := by
  obtain ⟨hn, hsucc, hfail, heq⟩ := textsLoop_spec api (pyChunks bs texts) 0
  have hres : translateTexts api bs texts =
      ((List.range (successCount api (pyChunks bs texts) 0)).map
        (fun j => batchSuccess api ((pyChunks bs texts).getD j []) j)).flatten := by
    show textsLoop api (pyChunks bs texts) 0 = _
    rw [heq]
    congr 1
    apply List.map_congr_left
    intro j _
    rw [Nat.zero_add]
  refine ⟨hn, ?_, ?_, hres, ?_⟩
  · intro j hj
    obtain ⟨ts, hts⟩ := hsucc j hj
    rw [Nat.zero_add] at hts
    exact ⟨ts, hts, translateBatch_success_len _ _ _ _ hts⟩
  · intro hlt ts
    have := hfail hlt ts
    rwa [Nat.zero_add] at this
  · intro hfull
    rw [hres, hfull]
    have hlen : ∀ j ∈ List.range (pyChunks bs texts).length,
        (batchSuccess api ((pyChunks bs texts).getD j []) j).length =
          ((pyChunks bs texts).getD j []).length := by
      intro j hj
      rw [List.mem_range] at hj
      obtain ⟨ts, hts⟩ := hsucc j (hfull ▸ hj)
      rw [Nat.zero_add] at hts
      unfold batchSuccess
      rw [hts]
      exact translateBatch_success_len _ _ _ _ hts
    rw [List.length_flatten, List.map_map]
    calc (List.map (List.length ∘ fun j =>
            batchSuccess api ((pyChunks bs texts).getD j []) j)
          (List.range (pyChunks bs texts).length)).sum
        = (List.map (fun j => ((pyChunks bs texts).getD j []).length)
            (List.range (pyChunks bs texts).length)).sum := by
          congr 1
          apply List.map_congr_left
          intro j hj
          exact hlen j hj
      _ = ((List.map (fun j => (pyChunks bs texts).getD j [])
            (List.range (pyChunks bs texts).length)).map List.length).sum := by
          rw [List.map_map]
          rfl
      _ = ((pyChunks bs texts).map List.length).sum := by
          rw [getD_range_map]
      _ = (pyChunks bs texts).flatten.length := by
          rw [List.length_flatten]
      _ = texts.length := by
          rw [pyChunks_flatten bs hbs]

/-- Witness for C2: batch size 2 over five texts where the third batch
fails: the first two batches succeed and the result is their
concatenation, a proper prefix of the request. -/
theorem C2_translateTexts_partial_results_witness :
    translateTexts
        (fun k _ => if k < 2 then ApiOutcome.ok "u\nv" else ApiOutcome.ok "z\nw")
        2 ["a", "b", "c", "d", "e"] =
      ((List.range (successCount
          (fun k _ => if k < 2 then ApiOutcome.ok "u\nv" else ApiOutcome.ok "z\nw")
          (pyChunks 2 ["a", "b", "c", "d", "e"]) 0)).map
        (fun j => batchSuccess
          (fun k _ => if k < 2 then ApiOutcome.ok "u\nv" else ApiOutcome.ok "z\nw")
          ((pyChunks 2 ["a", "b", "c", "d", "e"]).getD j []) j)).flatten ∧
    translateTexts
        (fun k _ => if k < 2 then ApiOutcome.ok "u\nv" else ApiOutcome.ok "z\nw")
        2 ["a", "b", "c", "d", "e"] = ["u", "v", "u", "v"] := by
  constructor
  · exact (C2_translateTexts_partial_results
      (fun k _ => if k < 2 then ApiOutcome.ok "u\nv" else ApiOutcome.ok "z\nw")
      2 ["a", "b", "c", "d", "e"] (by decide)).2.2.2.1
  · decide

/-! # Claim theorems: translation engine -/

/-- Claim C3 (corrected): for every column translated against a source
column, only rows whose target cell is missing and whose source cell is
non-missing are translated; every other target cell equals its
dtype-aligned input value (`castCellSpec` — not always the input value
verbatim, the astype phase may coerce it, see the counterexample); and a
second run on the output performs zero translations. -/
theorem C3_eligibility_and_idempotence (tr : Val → Except String String)
    (cfg : EngineCfg) (df : DataFrame) (setCols exCols : List String)
    (cb : Bool) (out : TState)
    (hrun : translateDataframe tr cfg df setCols exCols cb = .ok out)
    (hwf : df.WF) :
    (∀ c scol r, writeAction cfg df
        ((getBaseColumns df.colNames cfg.fieldLangSeparator).filter
          (fun x => x ∉ exCols)) c = some scol →
      r ∉ eligibleRows df c scol →
      out.df.cell c r = castCellSpec cfg df c r) ∧
    (∀ c scol r, writeAction cfg df
        ((getBaseColumns df.colNames cfg.fieldLangSeparator).filter
          (fun x => x ∉ exCols)) c = some scol →
      r ∈ eligibleRows df c scol →
      (df.cell c r).isna = true ∧ (df.cell scol r).notna = true) ∧
    (∀ tr' cb' out₂,
      translateDataframe tr' cfg out.df setCols exCols cb' = .ok out₂ →
      out₂.transCount = 0) := by
  obtain ⟨owf, ocols, onrows, -, -, ocell⟩ :=
    translateDataframe_char tr cfg df setCols exCols cb out hrun hwf
  refine ⟨?_, ?_, ?_⟩
  · intro c scol r hw hre
    rw [ocell c r]
    obtain ⟨b, l, hb, -, -, -, -⟩ := writeAction_elim cfg df _ c scol hw
    rw [specCell_some tr cfg df setCols exCols c r b l scol hb hw]
    by_cases hset : b ∈ setCols
    · rw [if_pos hset, if_neg (fun hh => hre hh.1)]
    · rw [if_neg hset, if_neg hre]
  · intro c scol r hw hre
    obtain ⟨h1, h2, h3⟩ := (mem_eligibleRows df c scol r).mp hre
    exact ⟨h2, h3⟩
  · intro tr' cb' out₂ hrun₂
    have hz := secondRun_count_zero tr cfg df setCols exCols cb out hrun hwf
    obtain ⟨-, -, -, hcount, -, -⟩ :=
      translateDataframe_char tr' cfg out.df setCols exCols cb' out₂
        hrun₂ owf
    rw [hcount, hz]

/-- Counterexample to C3 as stated: the populated target cell `"5"` of
`dfCast` (object dtype) does not keep its input value — the
dtype-alignment phase coerces it to the numeric `5` because the source
column is numeric. -/
theorem C3_counterexample :
    translateDataframe trBoom cfgStd dfCast [] [] false = .ok outC3c ∧
    (dfCast.cell "n.fr-FR" 0).isna = false ∧
    outC3c.df.cell "n.fr-FR" 0 ≠ dfCast.cell "n.fr-FR" 0 ∧
    outC3c.df.cell "n.fr-FR" 0 = Val.vint 5 ∧
    dfCast.cell "n.fr-FR" 0 = Val.vstr "5" :=
  ⟨rfl, by decide, by decide, by decide, by decide⟩

/-- Witness for C3: on `dfReg`, the populated target cell row 1 is kept
(as its dtype-aligned value, here unchanged `"done"`), and a second run
on the output counts zero translations. -/
theorem C3_eligibility_and_idempotence_witness :
    outC3w.df.cell "name.fr-FR" 1 =
      castCellSpec cfgStd dfReg "name.fr-FR" 1 ∧
    outC3w2.transCount = 0 := by
  have h := C3_eligibility_and_idempotence trUp cfgStd dfReg [] [] false
    outC3w rfl (by decide)
  refine ⟨h.1 "name.fr-FR" "name.en-US" 1 (by decide) (by decide), ?_⟩
  exact h.2.2 trUp false outC3w2 rfl

/-- Claim C4 (confirmed): for every eligible cell of a declared set
column (in a run that returned `ok`, with non-empty gathered elements),
the written target value is the source string split on the configured
separator, each element trimmed and translated, and the results
rejoined with the same separator in the original order. -/
theorem C4_set_round_trip (tr : Val → Except String String)
    (cfg : EngineCfg) (df : DataFrame) (setCols exCols : List String)
    (cb : Bool) (out : TState)
    (hrun : translateDataframe tr cfg df setCols exCols cb = .ok out)
    (hwf : df.WF) (c b l scol : String) (r : Nat)
    (hb : baseLangOf cfg.fieldLangSeparator c = some (b, l))
    (hw : writeAction cfg df ((getBaseColumns df.colNames
      cfg.fieldLangSeparator).filter (fun x => x ∉ exCols)) c = some scol)
    (hset : b ∈ setCols)
    (helig : r ∈ eligibleRows df c scol)
    (helems : ¬ (setAllElements df scol (eligibleRows df c scol)
      cfg.setSeparator).isEmpty = true) :
    out.df.cell c r = Val.vstr (String.intercalate cfg.setSeparator
      ((pySplit cfg.setSeparator (pyStr (df.cell scol r))).map
        (fun e => elemTrStr tr (pystrip e)))) := by
  obtain ⟨-, -, -, -, -, ocell⟩ :=
    translateDataframe_char tr cfg df setCols exCols cb out hrun hwf
  rw [ocell c r, specCell_some tr cfg df setCols exCols c r b l scol hb hw,
    if_pos hset, if_pos ⟨helig, helems⟩]
  rfl

/-- Witness for C4: on `dfSet` with set column `tags`, the eligible
cell of row 0 is written as the element-wise translation
`"Ta, Tb"` of `"a, b"`. -/
theorem C4_set_round_trip_witness :
    outC4w.df.cell "tags.fr-FR" 0 = Val.vstr (String.intercalate ", "
      ((pySplit ", " (pyStr (dfSet.cell "tags.en-US" 0))).map
        (fun e => elemTrStr trUp (pystrip e)))) ∧
    outC4w.df.cell "tags.fr-FR" 0 = Val.vstr "Ta, Tb" := by
  refine ⟨?_, by decide⟩
  exact C4_set_round_trip trUp cfgStd dfSet ["tags"] [] false outC4w rfl
    (by decide) "tags.fr-FR" "tags" "fr-FR" "tags.en-US" 0 (by decide)
    (by decide) (by decide) (by decide) (by decide)

/-- Claim C5 (code bug): the set branch does not deduplicate the
gathered trimmed elements before sending them through the translation
pipeline: with two eligible cells both holding `"x"`, the submitted
list is `["x", "x"]`, which has a duplicate. -/
theorem C5_no_dedup :
    setPassSubmitted trUp dfDup "tags.en-US" "tags.fr-FR" ", " =
      [Val.vstr "x", Val.vstr "x"] ∧
    ¬ (setPassSubmitted trUp dfDup "tags.en-US" "tags.fr-FR" ", ").Nodup :=
  ⟨by decide, by decide⟩

/-- Claim C6 (corrected): when the per-value pipeline raises on a
submitted value, no exception propagates (`translate_values` still
returns a full-length list) and a position holding a string equal to
its own stripped form keeps its original value.  (Positions holding
padded variants of the same stripped form may still change — see the
counterexample.) -/
theorem C6_per_value_error_fallback (tr : Val → Except String String)
    (vs : List Val) (i : Nat) (d : Val) (s msg : String)
    (hi : i < vs.length) (hv : vs.getD i d = Val.vstr s)
    (hclean : pystrip s = s) (herr : tr (Val.vstr s) = .error msg) :
    (translateValues tr vs).getD i d = Val.vstr s ∧
    (translateValues tr vs).length = vs.length := by
  refine ⟨?_, translateValues_length tr vs⟩
  by_cases hs : s = ""
  · subst hs
    apply translateValues_getD_miss tr vs i hi d (Val.vstr "") hv
    intro hmem
    have hval := (List.mem_filter.mp hmem).2
    simp [validVal, pyStr, pystrip_empty, Val.notna] at hval
  · rw [translateValues_getD_clean tr vs i hi d s hv hclean hs]
    unfold trFun
    rw [herr]

/-- Counterexample to C6 as stated: with an always-raising pipeline,
the cell `" a "` does not keep its original value — it is replaced by
`"a"`, the raw value of the other submitted entry that shares its
stripped form. -/
theorem C6_counterexample :
    translateValues trBoom [Val.vstr " a ", Val.vstr "a"] =
      [Val.vstr "a", Val.vstr "a"] ∧
    (translateValues trBoom [Val.vstr " a ", Val.vstr "a"]).getD 0 Val.na ≠
      Val.vstr " a " :=
  ⟨by decide, by decide⟩

/-- Witness for C6: a raising pipeline keeps the clean value `"b"`
unchanged and the output keeps the input length. -/
theorem C6_per_value_error_fallback_witness :
    (translateValues trBoom [Val.vstr "b"]).getD 0 Val.na = Val.vstr "b" ∧
    (translateValues trBoom [Val.vstr "b"]).length = 1 :=
  C6_per_value_error_fallback trBoom [Val.vstr "b"] 0 Val.na "b" "boom"
    (by decide) (by decide) (by decide) rfl

/-- Claim C7 (corrected): in the regular (non-set) branch, a value
written into a target column whose source column dtype is numeric is
cast back — to the parsed number if the translated string parses, and
kept as the translated string with a cast warning counted otherwise,
without failing the run.  The set branch performs no such cast (see the
counterexample). -/
theorem C7_numeric_cast_regular_branch (tr : Val → Except String String)
    (cfg : EngineCfg) (df : DataFrame) (setCols exCols : List String)
    (cb : Bool) (out : TState)
    (hrun : translateDataframe tr cfg df setCols exCols cb = .ok out)
    (hwf : df.WF) (c b l scol : String) (r : Nat) (s : String)
    (hb : baseLangOf cfg.fieldLangSeparator c = some (b, l))
    (hw : writeAction cfg df ((getBaseColumns df.colNames
      cfg.fieldLangSeparator).filter (fun x => x ∉ exCols)) c = some scol)
    (hreg : b ∉ setCols)
    (helig : r ∈ eligibleRows df c scol)
    (hnum : df.dtypeOf scol = Dtype.numeric)
    (hs : singleTranslated tr (df.cell scol r) = Val.vstr s) :
    (∀ n, pyParseInt (pystrip s) = some n →
      out.df.cell c r = Val.vint n) ∧
    (pyParseInt (pystrip s) = none →
      out.df.cell c r = Val.vstr s ∧
      regCastWarns tr (df.dtypeOf scol) (df.cell scol r) = true) ∧
    out.castWarnings = totalWarnsSpec tr cfg df setCols exCols := by
  obtain ⟨-, -, -, -, owarn, ocell⟩ :=
    translateDataframe_char tr cfg df setCols exCols cb out hrun hwf
  have hcell : out.df.cell c r =
      regWrittenVal tr (df.dtypeOf scol) (df.cell scol r) := by
    rw [ocell c r, specCell_some tr cfg df setCols exCols c r b l scol hb hw,
      if_neg hreg, if_pos helig]
  refine ⟨?_, ?_, owarn⟩
  · intro n hn
    rw [hcell]
    simp only [regWrittenVal]
    rw [hnum, if_pos rfl, hs]
    show (match pyParseInt (pystrip s) with
      | some n => Val.vint n
      | none => Val.vstr s) = Val.vint n
    rw [hn]
  · intro hn
    constructor
    · rw [hcell]
      simp only [regWrittenVal]
      rw [hnum, if_pos rfl, hs]
      show (match pyParseInt (pystrip s) with
        | some n => Val.vint n
        | none => Val.vstr s) = Val.vstr s
      rw [hn]
    · simp [regCastWarns, hnum, hs, hn]

/-- Counterexample to C7 as stated: with numeric-source group `n`
declared as a set column, the translated value `"55"` is written
without being cast back to a number. -/
theorem C7_counterexample :
    translateDataframe trNum cfgStd dfNum ["n"] [] false = .ok outC7c ∧
    dfNum.dtypeOf "n.en-US" = Dtype.numeric ∧
    outC7c.df.cell "n.fr-FR" 0 = Val.vstr "55" ∧
    outC7c.df.cell "n.fr-FR" 0 ≠ Val.vint 55 :=
  ⟨rfl, by decide, by decide, by decide⟩

/-- Witness for C7: translating `7` to the non-numeral `"cinq"` leaves
the translated string in place and counts one cast warning. -/
theorem C7_numeric_cast_regular_branch_witness :
    outC7w.df.cell "n.fr-FR" 0 = Val.vstr "cinq" ∧
    regCastWarns trWord (dfNum.dtypeOf "n.en-US")
      (dfNum.cell "n.en-US" 0) = true ∧
    outC7w.castWarnings = totalWarnsSpec trWord cfgStd dfNum [] [] ∧
    outC7w.castWarnings = 1 := by
  have h := C7_numeric_cast_regular_branch trWord cfgStd dfNum [] [] false
    outC7w rfl (by decide) "n.fr-FR" "n" "fr-FR" "n.en-US" 0 "cinq"
    (by decide) (by decide) (by decide) (by decide) (by decide) (by decide)
  obtain ⟨-, h2, h3⟩ := h
  obtain ⟨ha, hb2⟩ := h2 (by decide)
  exact ⟨ha, hb2, h3, by decide⟩

/-- Claim C8 (confirmed): the writes of `process_file` are exactly the
checkpoints — one snapshot each time `save_interval` further completed
units have accumulated since the last kept snapshot — followed by the
unconditional final write of the translated table; `save_interval`
absent or 0 disables all intermediate saves. -/
theorem C8_checkpoints (tr : Val → Except String String) (cfg : EngineCfg)
    (df : DataFrame) (setCols exCols : List String)
    (saveInterval : Option Nat) (writes : List DataFrame)
    (hrun : processFile tr cfg df setCols exCols saveInterval =
      .ok writes) :
    ∃ out, translateDataframe tr cfg df setCols exCols
        (decide (saveInterval.getD 0 ≠ 0)) = .ok out ∧
      writes = everyKth (saveInterval.getD 0) 0 out.snaps ++ [out.df] ∧
      writes.getLast? = some out.df ∧
      ((saveInterval = none ∨ saveInterval = some 0) →
        writes = [out.df]) := by
  simp only [processFile] at hrun
  cases hro : translateDataframe tr cfg df setCols exCols
      (decide (saveInterval.getD 0 ≠ 0)) with
  | error e => rw [hro] at hrun; cases hrun
  | ok out =>
    rw [hro] at hrun
    replace hrun : Except.ok (savesLoop (saveInterval.getD 0) out.snaps 0 0
        ++ [out.df]) = Except.ok writes := hrun
    injection hrun with hw
    refine ⟨out, rfl, ?_, ?_, ?_⟩
    · rw [← hw]
      congr 1
      by_cases hk : saveInterval.getD 0 = 0
      · rw [hk, savesLoop_zero, everyKth_zero]
      · exact savesLoop_eq_everyKth _ hk out.snaps 0 0 0 rfl
          (Nat.le_refl 0) (by omega)
    · rw [← hw]
      simp
    · intro hdis
      have hk : saveInterval.getD 0 = 0 := by
        rcases hdis with h | h <;> rw [h] <;> rfl
      rw [← hw, hk, savesLoop_zero]
      rfl

/-- Witness for C8: on `dfSet` with `save_interval = 1`, the writes are
the two per-unit checkpoints followed by the final table (3 writes, the
last being the translated table). -/
theorem C8_checkpoints_witness :
    wsC8 = everyKth 1 0 outC8.snaps ++ [outC8.df] ∧
    wsC8.length = 3 ∧ wsC8.getLast? = some outC8.df := by
  obtain ⟨out, hout, hw, hl, -⟩ := C8_checkpoints trUp cfgStd dfSet ["tags"]
    [] (some 1) wsC8 rfl
  have hout2 : translateDataframe trUp cfgStd dfSet ["tags"] [] true =
      .ok out := hout
  have h3 : translateDataframe trUp cfgStd dfSet ["tags"] [] true =
      .ok outC8 := rfl
  rw [hout2] at h3
  have hoeq : out = outC8 := by injection h3
  rw [hoeq] at hw hl
  exact ⟨hw, by decide, hl⟩

/-- Claim C9 (confirmed): `translate_dataframe` returns a table of the
same shape in which every source-language column and every column
without the field-language separator holds exactly the input cells (in
the embedding all writes go to the returned copy, so the input frame is
never mutated). -/
theorem C9_frame_preservation (tr : Val → Except String String)
    (cfg : EngineCfg) (df : DataFrame) (setCols exCols : List String)
    (cb : Bool) (out : TState)
    (hrun : translateDataframe tr cfg df setCols exCols cb = .ok out)
    (hwf : df.WF) :
    out.df.colNames = df.colNames ∧ out.df.nrows = df.nrows ∧
    (∀ c r, baseLangOf cfg.fieldLangSeparator c = none →
      out.df.cell c r = df.cell c r) ∧
    (∀ c b r, baseLangOf cfg.fieldLangSeparator c =
        some (b, cfg.sourceLang) →
      out.df.cell c r = df.cell c r) := by
  obtain ⟨-, ocols, onrows, -, -, ocell⟩ :=
    translateDataframe_char tr cfg df setCols exCols cb out hrun hwf
  refine ⟨ocols, onrows, ?_, ?_⟩
  · intro c r h
    rw [ocell c r]
    exact specCell_nolang tr cfg df setCols exCols c r h
  · intro c b r h
    rw [ocell c r]
    exact specCell_source tr cfg df setCols exCols c b r h

/-- Witness for C9: on `dfReg` the source column and the plain `id`
column are returned unchanged, with the column list preserved. -/
theorem C9_frame_preservation_witness :
    outC9w.df.cell "name.en-US" 0 = dfReg.cell "name.en-US" 0 ∧
    outC9w.df.cell "id" 1 = dfReg.cell "id" 1 ∧
    outC9w.df.colNames = dfReg.colNames := by
  have h := C9_frame_preservation trUp cfgStd dfReg [] [] true outC9w rfl
    (by decide)
  exact ⟨h.2.2.2 "name.en-US" "name" 0 (by decide),
    h.2.2.1 "id" 1 (by decide), h.1⟩

/-- Claim C10 (corrected): `translate_values` always returns a list of
the input's length, and position `i` is replaced exactly when its
value's stripped string form occurs among the submitted (valid) values
— in which case it receives that form's translation.  This refutes the
as-stated condition that only strings equal to their own stripped form
can change: a padded string whose stripped form was submitted changes
too (see the counterexample). -/
theorem C10_translateValues_replacement (tr : Val → Except String String)
    (vs : List Val) :
    (translateValues tr vs).length = vs.length ∧
    (∀ i d v, i < vs.length → vs.getD i d = v →
      (translateValues tr vs).getD i d =
        (if v.notna = true then
          if Val.vstr (pystrip (pyStr v)) ∈ vs.filter validVal then
            trFun tr (Val.vstr (pystrip (pyStr v)))
          else v
        else v)) := by
  refine ⟨translateValues_length tr vs, ?_⟩
  intro i d v hi hv
  exact translateValues_getD tr vs i hi d v hv

/-- Counterexample to C10 as stated: position 0 holds `" a "`, a string
with surrounding whitespace, yet it is replaced by the translation of
its stripped form `"a"` (submitted at position 1). -/
theorem C10_counterexample :
    translateValues trUp [Val.vstr " a ", Val.vstr "a"] =
      [Val.vstr "Ta", Val.vstr "Ta"] ∧
    pystrip " a " ≠ " a " ∧
    (translateValues trUp [Val.vstr " a ", Val.vstr "a"]).getD 0 Val.na ≠
      Val.vstr " a " :=
  ⟨by decide, by decide, by decide⟩

/-- Witness for C10: the replacement rule evaluated at position 0 of
`[" a ", "a"]` yields the translation `"Ta"`, with length preserved. -/
theorem C10_translateValues_replacement_witness :
    (translateValues trUp [Val.vstr " a ", Val.vstr "a"]).length = 2 ∧
    (translateValues trUp [Val.vstr " a ", Val.vstr "a"]).getD 0 Val.na =
      Val.vstr "Ta" := by
  have h := C10_translateValues_replacement trUp
    [Val.vstr " a ", Val.vstr "a"]
  refine ⟨h.1, ?_⟩
  rw [h.2 0 Val.na (Val.vstr " a ") (by decide) (by decide)]
  decide

end CommerceCraft
